import Mathlib

/-!
Verification of the synchronization core of the AsyncPP pipeline-parallel
training runtime: the weight-stashing versioned optimizer wrapper
(`src/optim/optimizer.py`) and the single-producer/single-consumer handoff
queue (`src/runtime/threadsafe_queue.py`).

The Python code is shallowly embedded: tensors become rational payloads with
a device tag, state dicts become association lists keyed by strings, the
snapshot deque becomes a list with explicit max-length eviction, and the
external collaborators (the wrapped `torch.optim` algorithm, gradient norm
clipping, the apex mixed-precision hooks) become opaque function parameters.
All mutation is made explicit by state passing.
-/

namespace TSQ

/-!
Model of `src/runtime/threadsafe_queue.py` at the level of its linearized
behaviour.  `add` appends on the right of the deque and `remove` pops on the
left; both bodies run entirely under `self.cv`'s lock, so every execution of
one producer and one consumer linearizes into a sequence of atomic `add` and
`remove` operations, where a `remove` is placed at the moment it finds the
queue non-empty (a `remove` that arrives at an empty queue waits on the
condition variable and takes effect only after a later `add`).
-/

/-- `self.queue.append(tensor)` under the lock. -/
def add (q : List α) (x : α) : List α := q ++ [x]

/-- `self.queue.popleft()` under the lock; `none` means the queue is empty,
in which case the real `remove` blocks in `self.cv.wait()` instead of
completing (so an empty-queue pop never occurs in a completed
linearization). -/
def remove (q : List α) : Option (α × List α) :=
  match q with
  | [] => none
  | x :: r => some (x, r)

/-- One linearized operation on the queue. -/
inductive Op (α : Type) where
  | push (x : α)
  | pop
deriving DecidableEq, Repr

/-- Run a linearized trace of operations.  The state is the queue contents
paired with the list of payloads returned by `remove` so far; the run fails
(returns `none`) only if a `pop` is linearized at an empty queue, which the
blocking `remove` never does. -/
def run : List (Op α) → List α × List α → Option (List α × List α)
  | [], s => some s
  | Op.push x :: t, (q, out) => run t (add q x, out)
  | Op.pop :: t, (q, out) =>
    match remove q with
    | some (x, r) => run t (r, out ++ [x])
    | none => none

/-- The payloads pushed by a trace, in push order. -/
def pushedOf : List (Op α) → List α
  | [] => []
  | Op.push x :: t => x :: pushedOf t
  | Op.pop :: t => pushedOf t

/-- The number of pops in a trace. -/
def popCount : List (Op α) → Nat
  | [] => 0
  | Op.push _ :: t => popCount t
  | Op.pop :: t => popCount t + 1

theorem run_invariant (ops : List (Op α)) :
    ∀ q₀ out₀ q out, run ops (q₀, out₀) = some (q, out) →
      out ++ q = out₀ ++ q₀ ++ pushedOf ops ∧
      out.length = out₀.length + popCount ops := by
  induction ops with
  | nil =>
    intro q₀ out₀ q out h
    simp only [run, Option.some.injEq, Prod.mk.injEq] at h
    obtain ⟨h1, h2⟩ := h
    subst h1; subst h2
    simp [pushedOf, popCount]
  | cons op t ih =>
    intro q₀ out₀ q out h
    cases op with
    | push x =>
      have := ih (add q₀ x) out₀ q out h
      simp only [pushedOf, popCount, add] at *
      constructor
      · rw [this.1]; simp
      · exact this.2
    | pop =>
      cases q₀ with
      | nil => simp [run, remove] at h
      | cons y r =>
        simp only [run, remove] at h
        have := ih r (out₀ ++ [y]) q out h
        simp only [pushedOf, popCount] at *
        constructor
        · rw [this.1]; simp
        · rw [this.2]; simp; omega

end TSQ

/-- C3: for every linearized sequence of `add`s by the single producer and
`remove`s by the single consumer that completes (no pop is linearized at an
empty queue — blocking `remove` defers such pops past the next `add`), the
payloads returned by `remove` are exactly the first `popCount ops` pushed
payloads, in push order: FIFO, with nothing dropped, duplicated or
reordered; in particular the returned payloads followed by the residual
queue contents reconstitute the pushed sequence exactly. -/
theorem C3_queue_fifo (ops : List (TSQ.Op α)) (q out : List α)
    (h : TSQ.run ops ([], []) = some (q, out)) :
    out ++ q = TSQ.pushedOf ops ∧
    out.length = TSQ.popCount ops ∧
    out = (TSQ.pushedOf ops).take (TSQ.popCount ops) := by
  have main := TSQ.run_invariant ops [] [] q out h
  simp only [List.nil_append, List.length_nil, Nat.zero_add] at main
  obtain ⟨h1, h2⟩ := main
  refine ⟨h1, h2, ?_⟩
  rw [← h1, ← h2, List.take_left]

/-- Witness for C3: pushes `[a, b, c]` (as `[10, 20, 30]`) interleaved with
three pops yield exactly `[10, 20, 30]`. -/
theorem C3_queue_fifo_witness :
    TSQ.run [TSQ.Op.push 10, TSQ.Op.pop, TSQ.Op.push 20, TSQ.Op.push 30,
             TSQ.Op.pop, TSQ.Op.pop] (([] : List Nat), []) = some ([], [10, 20, 30]) ∧
    [10, 20, 30] ++ ([] : List Nat) =
      TSQ.pushedOf [TSQ.Op.push 10, TSQ.Op.pop, TSQ.Op.push 20, TSQ.Op.push 30,
                    TSQ.Op.pop, TSQ.Op.pop] := by
  refine ⟨by decide, ?_⟩
  exact (C3_queue_fifo _ _ _ (by decide)).1

namespace HQ

/-!
Interleaving-level model of `src/runtime/threadsafe_queue.py` with one
producer thread running `add` calls and one consumer thread running `remove`
calls.  Each Python statement of `add`/`remove` is one atomic transition;
`self.cv.wait()` atomically releases the lock and joins the wait set (as
CPython's `Condition.wait` does while still holding the lock), and
`self.cv.notify()` moves a waiter out of the wait set while the notifier
still holds the lock.
-/

/-- Who holds `self.cv`'s underlying lock. -/
inductive LockSt where
  | free
  | prodHeld
  | consHeld
deriving DecidableEq, Repr

/-- Producer program counter, inside one `add` call:
`idle` (between calls) → `locked` (after `cv.acquire()`) → `appended`
(after `queue.append`) → `notified` (after `cv.notify()`) → release →
`idle`. -/
inductive PPc where
  | idle
  | locked
  | appended
  | notified
deriving DecidableEq, Repr

/-- Consumer program counter, inside one `remove` call:
`idle` → `check` (holds the lock, at the `while len(self.queue) == 0` test)
→ either `waiting` (in the condition's wait set, lock released) or
`popping` (loop exited, still holds the lock); `waiting` → `wakened`
(notified, must reacquire) → `check` again; `popping` → pop, release,
`idle`. -/
inductive CPc where
  | idle
  | check
  | waiting
  | wakened
  | popping
deriving DecidableEq, Repr

/-- Global state of the two threads and the shared queue.  `script` holds
the payloads the producer has yet to `add`; `toPop` counts the `remove`
calls the consumer has yet to make; `out` collects the payloads returned by
completed `remove` calls. -/
structure S where
  lock : LockSt
  ppc : PPc
  cpc : CPc
  queue : List Nat
  script : List Nat
  toPop : Nat
  out : List Nat
deriving DecidableEq, Repr

/-- Initial state: both threads idle, queue empty, lock free. -/
def start (script : List Nat) (toPop : Nat) : S :=
  { lock := .free, ppc := .idle, cpc := .idle,
    queue := [], script := script, toPop := toPop, out := [] }

/-- One atomic interleaving step of the producer or the consumer. -/
inductive Step : S → S → Prop where
  | pAcquire (s : S) (x : Nat) (t : List Nat) :
      s.ppc = .idle → s.lock = .free → s.script = x :: t →
      Step s { s with ppc := .locked, lock := .prodHeld }
  | pAppend (s : S) (x : Nat) (t : List Nat) :
      s.ppc = .locked → s.script = x :: t →
      Step s { s with ppc := .appended, queue := s.queue ++ [x], script := t }
  | pNotify (s : S) :
      s.ppc = .appended →
      Step s { s with ppc := .notified,
                      cpc := if s.cpc = .waiting then .wakened else s.cpc }
  | pRelease (s : S) :
      s.ppc = .notified →
      Step s { s with ppc := .idle, lock := .free }
  | cAcquire (s : S) :
      s.cpc = .idle → s.lock = .free → 0 < s.toPop →
      Step s { s with cpc := .check, lock := .consHeld }
  | cWait (s : S) :
      s.cpc = .check → s.queue = [] →
      Step s { s with cpc := .waiting, lock := .free }
  | cExitLoop (s : S) :
      s.cpc = .check → s.queue ≠ [] →
      Step s { s with cpc := .popping }
  | cReacquire (s : S) :
      s.cpc = .wakened → s.lock = .free →
      Step s { s with cpc := .check, lock := .consHeld }
  | cPop (s : S) (x : Nat) (r : List Nat) :
      s.cpc = .popping → s.queue = x :: r →
      Step s { s with cpc := .idle, lock := .free, queue := r,
                      out := s.out ++ [x], toPop := s.toPop - 1 }

/-- States reachable from `start script toPop` under arbitrary
interleavings. -/
inductive Reach (script : List Nat) (toPop : Nat) : S → Prop where
  | init : Reach script toPop (start script toPop)
  | step {s s' : S} : Reach script toPop s → Step s s' → Reach script toPop s'

/-- The inductive invariant: lock/program-counter coherence, the
no-lost-wakeup property, pop safety, and global FIFO accounting. -/
def Inv (script0 : List Nat) (s : S) : Prop :=
  (s.lock = LockSt.prodHeld ↔ s.ppc ≠ PPc.idle) ∧
  (s.lock = LockSt.consHeld ↔ (s.cpc = CPc.check ∨ s.cpc = CPc.popping)) ∧
  (s.cpc = CPc.waiting → s.queue = [] ∨ s.ppc = PPc.appended) ∧
  (s.ppc = PPc.notified → s.cpc ≠ CPc.waiting) ∧
  (s.cpc = CPc.popping → s.queue ≠ []) ∧
  s.out ++ s.queue ++ s.script = script0

theorem inv_init (script : List Nat) (toPop : Nat) : Inv script (start script toPop) := by
  simp [Inv, start]

theorem inv_step {script0 : List Nat} {s s' : S} (hs : Inv script0 s) (h : Step s s') :
    Inv script0 s' := by
  obtain ⟨h1, h2, h3, h4, h5, h6⟩ := hs
  cases h with
  | pAcquire x t hp hl hscr =>
    refine ⟨by simp, by simp_all, ?_, by simp, by simp_all, by simp_all⟩
    intro hw
    rcases h3 hw with hq | hpp
    · exact Or.inl hq
    · rw [hp] at hpp; exact absurd hpp (by simp)
  | pAppend x t hp hscr =>
    refine ⟨by simp_all, by simp_all, by simp, ?_, by simp_all, by simp_all⟩
    intro hn
    simp at hn
  | pNotify hp =>
    by_cases hw : s.cpc = CPc.waiting
    · refine ⟨by simp_all, by simp_all [hw], by simp [hw], by simp [hw], by simp_all [hw], by simp_all⟩
    · refine ⟨by simp_all, by simp_all [hw], by simp_all [hw], by simp_all [hw], by simp_all [hw], by simp_all⟩
  | pRelease hp =>
    refine ⟨by simp, by simp_all, ?_, by simp, by simp_all, by simp_all⟩
    intro hw
    exact absurd hw (h4 hp)
  | cAcquire hc hl ht =>
    have hpidle : s.ppc = PPc.idle := by
      by_contra hne
      have hpl := h1.mpr hne
      rw [hl] at hpl
      exact absurd hpl (by simp)
    refine ⟨by simp_all, by simp, by simp, by simp, by simp, by simp_all⟩
  | cWait hc hq =>
    have hpidle : s.ppc = PPc.idle := by
      have hlc : s.lock = LockSt.consHeld := h2.mpr (Or.inl hc)
      by_contra hne
      have hpl := h1.mpr hne
      rw [hlc] at hpl
      exact absurd hpl (by simp)
    refine ⟨by simp_all, by simp, by simp_all, by simp_all, by simp, by simp_all⟩
  | cExitLoop hc hq =>
    have hlc : s.lock = LockSt.consHeld := h2.mpr (Or.inl hc)
    have hpidle : s.ppc = PPc.idle := by
      by_contra hne
      have hpl := h1.mpr hne
      rw [hlc] at hpl
      exact absurd hpl (by simp)
    refine ⟨by simp_all, by simp_all, by simp, by simp_all, by simp_all, by simp_all⟩
  | cReacquire hc hl =>
    have hpidle : s.ppc = PPc.idle := by
      by_contra hne
      have hpl := h1.mpr hne
      rw [hl] at hpl
      exact absurd hpl (by simp)
    refine ⟨by simp_all, by simp, by simp, by simp_all, by simp, by simp_all⟩
  | cPop x r hc hq =>
    have hlc : s.lock = LockSt.consHeld := h2.mpr (Or.inr hc)
    have hpidle : s.ppc = PPc.idle := by
      by_contra hne
      have hpl := h1.mpr hne
      rw [hlc] at hpl
      exact absurd hpl (by simp)
    refine ⟨by simp_all, by simp, by simp, by simp_all, by simp, ?_⟩
    simp only
    rw [← h6, hq]
    simp

theorem inv_reach {script : List Nat} {toPop : Nat} {s : S}
    (h : Reach script toPop s) : Inv script s := by
  induction h with
  | init => exact inv_init script toPop
  | step _ hstep ih => exact inv_step ih hstep

end HQ

/-- C9: in every reachable state of the one-producer/one-consumer
interleaving model of `Queue`: (1) whenever the consumer sits in the
condition variable's wait set, either the queue is empty or the producer is
holding the lock between its `append` and its `notify` — so a wakeup for a
payload appended between the consumer's emptiness check and its wait cannot
be lost; (2) while in the wait set the consumer stays blocked: the only
transition that changes its state is the producer's `notify` right after an
`append`, which moves it to `wakened`; (3) the consumer only reaches the
`popleft` statement with a non-empty queue, so `remove` returns only once a
payload is available; and (4) the payloads returned so far, followed by the
queue contents and the not-yet-pushed payloads, are exactly the original
script — the consumer always receives the oldest payload, in FIFO order. -/
theorem C9_no_lost_wakeup (script : List Nat) (toPop : Nat) (s : HQ.S)
    (h : HQ.Reach script toPop s) :
    (s.cpc = HQ.CPc.waiting → s.queue = [] ∨ s.ppc = HQ.PPc.appended) ∧
    (s.cpc = HQ.CPc.waiting → ∀ s', HQ.Step s s' →
      s'.cpc = HQ.CPc.waiting ∨ (s.ppc = HQ.PPc.appended ∧ s'.cpc = HQ.CPc.wakened)) ∧
    (s.cpc = HQ.CPc.popping → s.queue ≠ []) ∧
    s.out ++ s.queue ++ s.script = script := by
  obtain ⟨h1, h2, h3, h4, h5, h6⟩ := HQ.inv_reach h
  refine ⟨h3, ?_, h5, h6⟩
  intro hw s' hstep
  cases hstep with
  | pAcquire x t hp hl hscr => exact Or.inl (by simp_all)
  | pAppend x t hp hscr => exact Or.inl (by simp_all)
  | pNotify hp => exact Or.inr ⟨hp, by simp_all⟩
  | pRelease hp => exact absurd hw (h4 hp)
  | cAcquire hc hl ht => rw [hc] at hw; exact absurd hw (by simp)
  | cWait hc hq => rw [hc] at hw; exact absurd hw (by simp)
  | cExitLoop hc hq => rw [hc] at hw; exact absurd hw (by simp)
  | cReacquire hc hl => rw [hc] at hw; exact absurd hw (by simp)
  | cPop x r hc hq => rw [hc] at hw; exact absurd hw (by simp)

/-- Witness for C9, at the initial state with script `[5, 7]` and two
pending `remove` calls. -/
theorem C9_no_lost_wakeup_witness :
    ((HQ.start [5, 7] 2).cpc = HQ.CPc.waiting →
      (HQ.start [5, 7] 2).queue = [] ∨ (HQ.start [5, 7] 2).ppc = HQ.PPc.appended) ∧
    ((HQ.start [5, 7] 2).cpc = HQ.CPc.waiting → ∀ s', HQ.Step (HQ.start [5, 7] 2) s' →
      s'.cpc = HQ.CPc.waiting ∨
      ((HQ.start [5, 7] 2).ppc = HQ.PPc.appended ∧ s'.cpc = HQ.CPc.wakened)) ∧
    ((HQ.start [5, 7] 2).cpc = HQ.CPc.popping → (HQ.start [5, 7] 2).queue ≠ []) ∧
    (HQ.start [5, 7] 2).out ++ (HQ.start [5, 7] 2).queue ++ (HQ.start [5, 7] 2).script
      = [5, 7] :=
  C9_no_lost_wakeup [5, 7] 2 (HQ.start [5, 7] 2) HQ.Reach.init

namespace WS

/-!
Model of `src/optim/optimizer.py` (`OptimizerWithWeightStashing`).  Tensors
are rational payloads with a device tag; `clone()` yields fresh storage with
the same value, `copy_` copies the value in place and keeps the
destination's device, `.cpu()`/`.cuda()` move between tiers.  The external
collaborators — the wrapped `torch.optim.{optim_name}` algorithm,
`torch.nn.utils.clip_grad_norm_` (whose norm arithmetic runs on floats) and
the apex fp16 hooks — enter as opaque function parameters in `Collab`.
-/

/-- The storage tier a tensor lives on. -/
inductive Device where
  | cpu
  | gpu
deriving DecidableEq, Repr

/-- A tensor: an opaque payload value plus its device. -/
structure Tensor where
  data : ℚ
  device : Device
deriving DecidableEq, Repr

/-- `tensor.clone()`: fresh storage, same value, same device. -/
def Tensor.clone (t : Tensor) : Tensor := t

/-- `tensor.cpu()`. -/
def Tensor.cpu (t : Tensor) : Tensor := { t with device := Device.cpu }

/-- `tensor.cuda()`. -/
def Tensor.cuda (t : Tensor) : Tensor := { t with device := Device.gpu }

/-- `dst.copy_(src)`: in-place value copy; the destination keeps its own
storage and device. -/
def Tensor.copy_ (dst src : Tensor) : Tensor :=
  { data := src.data, device := dst.device }

/-- Python's `pat in key` substring test. -/
def strContains (hay pat : String) : Bool :=
  decide (List.IsInfix pat.data hay.data)

/-- `"running_" in key`: batchnorm running statistics accumulate live. -/
def hasRunning (k : String) : Bool := strContains k "running_"

/-- `"mask" in key`: mask fields may change shape between stash points. -/
def hasMask (k : String) : Bool := strContains k "mask"

/-- A `module.state_dict()`: an ordered mapping from field names to
tensors. -/
abbrev StateDict := List (String × Tensor)

/-- `state_dict[key]` as an optional lookup (a missing key raises `KeyError`
in Python; the states this development manipulates keep snapshot and module
key sets aligned, as `initialize_queue` guarantees). -/
def sdLookup (sd : StateDict) (k : String) : Option Tensor :=
  match sd with
  | [] => none
  | kv :: t => if kv.1 == k then some kv.2 else sdLookup t k

/-- `state_dict[key] = v`: overwrite the entry if the key is present,
append it otherwise. -/
def sdSet (sd : StateDict) (k : String) (v : Tensor) : StateDict :=
  match sd with
  | [] => [(k, v)]
  | kv :: t => if kv.1 == k then (k, v) :: t else kv :: sdSet t k v

/-- The black-box collaborators of the wrapper.  `baseStep` is the wrapped
algorithm's `step()` (new parameter values and the returned loss, as a
function of current parameters and gradients); `clipGradNorm` is
`torch.nn.utils.clip_grad_norm_` restricted to its in-place effect on the
gradients; `modelGradsToMaster` is `apex.fp16_utils.model_grads_to_master_grads`
restricted to its effect on the master gradients. -/
structure Collab where
  baseStep : List ℚ → List (Option ℚ) → List ℚ × Option ℚ
  clipGradNorm : List (Option ℚ) → ℚ → List (Option ℚ)
  modelGradsToMaster : List (Option ℚ) → List (Option ℚ)

/-- One slot of `self.queue`: either an in-memory `(state_dicts, version)`
pair, or (when `save_dir` is set) the key of the on-disk blob
`version_{version.version % num_versions}.pth.tar`. -/
inductive Slot where
  | mem (sds : List StateDict) (version : Nat)
  | file (key : Nat)
deriving DecidableEq, Repr

/-- `collections.deque(maxlen=maxlen).append`: appending to a full deque
evicts the leftmost element. -/
def dequeAppend (maxlen : Nat) (q : List Slot) (x : Slot) : List Slot :=
  if maxlen = 0 then []
  else if q.length < maxlen then q ++ [x]
  else q.drop (q.length + 1 - maxlen) ++ [x]

/-- The mutable state of an `OptimizerWithWeightStashing`, together with the
configuration fixed at construction.  `nBaseSteps` instruments the number of
`base_optimizer.step()` invocations; `params`/`grads` are the values and
gradients of `param_groups[0]['params']` (the master parameters). -/
structure OptState where
  hasBase : Bool
  fp16 : Bool
  lossScale : ℚ
  clipGrad : Option ℚ
  saveDir : Bool
  stashToCpu : Bool
  numVersions : Nat
  updateInterval : Nat
  batchCounter : Nat
  latestVersion : Nat
  currentVersion : Nat
  params : List ℚ
  grads : List (Option ℚ)
  modules : List StateDict
  queue : List Slot
  store : List (Nat × (List StateDict × Nat))
  nBaseSteps : Nat
deriving DecidableEq, Repr

/-- Read a blob from the `save_dir` key-value store (newest write first). -/
def storeLookup (store : List (Nat × (List StateDict × Nat))) (k : Nat) :
    Option (List StateDict × Nat) :=
  (store.find? (fun e => e.1 == k)).map (fun e => e.2)

/-- `append_to_queue(data)`: with `save_dir` set, persist the blob under
`version % num_versions` and keep only the key in the ring; otherwise keep
the pair in memory.  The deque's `maxlen` evicts the oldest slot. -/
def appendToQueue (st : OptState) (sds : List StateDict) (v : Nat) : OptState :=
  if st.saveDir then
    { st with store := (v % st.numVersions, (sds, v)) :: st.store,
              queue := dequeAppend st.numVersions st.queue (Slot.file (v % st.numVersions)) }
  else
    { st with queue := dequeAppend st.numVersions st.queue (Slot.mem sds v) }

/-- `get_from_queue(index)`: return the stored pair; with `save_dir` set,
load the blob back from the store (`none` models the fatal
`torch.load` failure on a missing file). -/
def getFromQueue (st : OptState) (i : Nat) : Option (List StateDict × Nat) :=
  match st.queue.get? i with
  | some (Slot.mem sds v) => some (sds, v)
  | some (Slot.file k) => storeLookup st.store k
  | none => none

/-- `get_params(clone=True)`: deep-copy every field of every module,
moving the copies to the CPU when `stash_to_cpu` is set.  Returns the
state dicts; the version attached is the caller's `self.latest_version`. -/
def cloneStateDicts (stash : Bool) (mods : List StateDict) : List StateDict :=
  mods.map (fun sd => sd.map (fun kv =>
    (kv.1, if stash then (Tensor.clone kv.2).cpu else Tensor.clone kv.2)))

/-- The body of `get_params(clone=False)` for one module: mutate the
buffered dict in place, field by field over the module's keys —
`running_*` fields are skipped entirely, `mask` fields are freshly cloned
(their shape may have changed), all other fields are overwritten via
in-place `copy_`. -/
def captureDict (stash : Bool) (buf m : StateDict) : StateDict :=
  m.foldl (fun b kv =>
    if hasRunning kv.1 then b
    else if hasMask kv.1 then
      sdSet b kv.1 (if stash then (Tensor.clone kv.2).cpu else Tensor.clone kv.2)
    else
      sdSet b kv.1 (match sdLookup b kv.1 with
        | some t => Tensor.copy_ t (if stash then kv.2.cpu else kv.2)
        | none => if stash then kv.2.cpu else kv.2)) buf

/-- `get_params(clone=False)`: rotate the reused buffer, module by module.
Buffer entries beyond the module list are untouched. -/
def getParamsNoClone (stash : Bool) (buffered mods : List StateDict) : List StateDict :=
  ((buffered.zip mods).map (fun p => captureDict stash p.1 p.2)) ++
    buffered.drop mods.length

/-- The first loop of `set_params` for one module: for every key whose name
contains `running_` or `mask`, rebind the snapshot's entry to the module's
current (live) tensor, moved back to the GPU when it was stashed to CPU;
other entries are left as captured. -/
def rebindSpecial (stash : Bool) (m sd : StateDict) : StateDict :=
  sd.map (fun kv =>
    (kv.1,
     if hasRunning kv.1 || hasMask kv.1 then
       match sdLookup m kv.1 with
       | some cur => if stash then cur.cuda else cur
       | none => kv.2
     else kv.2))

/-- `module.load_state_dict(state_dict)`: copy each entry's value into the
module's existing tensor (in place, so the module keeps its devices). -/
def loadStateDict (m sd : StateDict) : StateDict :=
  m.map (fun kv =>
    (kv.1,
     match sdLookup sd kv.1 with
     | some v => kv.2.copy_ v
     | none => kv.2))

/-- `set_params` for one `(state_dict, module)` pair: rebind the special
keys in the snapshot, then `load_state_dict`.  The trailing "Load the mask"
loop of the source only reassigns a local variable (`attribute = ...`) and
never writes into the module's attribute graph, so it has no effect on
state and is not modelled.  Returns the (mutated) snapshot and the new
module state. -/
def setParamsPair (stash : Bool) (sd m : StateDict) : StateDict × StateDict :=
  let sd' := rebindSpecial stash m sd
  (sd', loadStateDict m sd')

/-- `set_params(state_dicts, version)` over `zip(state_dicts, self.modules)`:
returns the mutated snapshot list and the new module states (entries beyond
the zip are untouched on either side). -/
def setParams (stash : Bool) (sds mods : List StateDict) :
    List StateDict × List StateDict :=
  let pairs := (sds.zip mods).map (fun p => setParamsPair stash p.1 p.2)
  (pairs.map Prod.fst ++ sds.drop mods.length,
   pairs.map Prod.snd ++ mods.drop sds.length)

/-- `load_old_params()`: with more than one retained version, restore the
oldest ring slot.  In memory, the slot's dict objects are the very objects
`set_params` mutates, so the mutation is visible in the ring (modelled by
writing the mutated dicts back to slot 0); with `save_dir` the mutation
hits a freshly loaded copy and the stored blob is untouched. -/
def loadOldParams (st : OptState) : OptState :=
  if 1 < st.numVersions then
    match getFromQueue st 0 with
    | some (sds, v) =>
      let r := setParams st.stashToCpu sds st.modules
      { st with modules := r.2, currentVersion := v,
                queue := if st.saveDir then st.queue
                         else st.queue.set 0 (Slot.mem r.1 v) }
    | none => st
  else st

/-- `load_new_params()`: same as `load_old_params` for `queue[-1]`, the
newest ring slot. -/
def loadNewParams (st : OptState) : OptState :=
  if 1 < st.numVersions then
    match getFromQueue st (st.queue.length - 1) with
    | some (sds, v) =>
      let r := setParams st.stashToCpu sds st.modules
      { st with modules := r.2, currentVersion := v,
                queue := if st.saveDir then st.queue
                         else st.queue.set (st.queue.length - 1) (Slot.mem r.1 v) }
    | none => st
  else st

/-- `zero_grad()`: clear the wrapped optimizer's gradients only when a
fresh accumulation window begins. -/
def zeroGrad (st : OptState) : OptState :=
  if st.hasBase = true ∧ st.batchCounter % st.updateInterval = 0 then
    { st with grads := st.grads.map (Option.map (fun _ => 0)) }
  else st

/-- The snapshot rotation at the end of a real `step()`:
`self.buffered_state_dicts = self.get_from_queue(0)[0]` followed by
`self.append_to_queue(self.get_params(clone=False))` (the reused buffer is
the storage of the slot about to be evicted). -/
def pushLatest (st : OptState) : OptState :=
  match getFromQueue st 0 with
  | some bv =>
    appendToQueue st (getParamsNoClone st.stashToCpu bv.1 st.modules) st.latestVersion
  | none => st

/-- The gradient pipeline of a real `step()`: the fp16
`model_grads_to_master_grads` hook followed by loss-scale division, then
`p.grad.div_(self.update_interval)` over `param_groups[0]['params']` (an
empty group when `base_optimizer is None`, via `__getattr__`), then
`torch.nn.utils.clip_grad_norm_` when a threshold is configured. -/
def stepGrads (c : Collab) (st : OptState) : List (Option ℚ) :=
  let g0 := if st.fp16 then
              let gm := c.modelGradsToMaster st.grads
              if st.lossScale ≠ 1 then
                gm.map (Option.map (fun x => x / st.lossScale))
              else gm
            else st.grads
  let g1 := if st.hasBase then
              g0.map (Option.map (fun x => x / (st.updateInterval : ℚ)))
            else g0
  match st.clipGrad with
  | some cg => c.clipGradNorm g1 cg
  | none => g1

/-- The state change of a real `step()` before the ring rotation: gradients
as left by the pipeline, parameters as produced by one
`base_optimizer.step()` invocation (none when there is no base optimizer),
and `self.latest_version = self.latest_version.incr()`.
(`master_params_to_model_params` only writes the untracked fp16 model
copies; the in-place effect of the base update on the live module tensors
is likewise untracked — no claim below depends on captured snapshot
values, only on version tags.) -/
def stepCore (c : Collab) (st : OptState) : OptState :=
  { st with grads := stepGrads c st,
            params := if st.hasBase then (c.baseStep st.params (stepGrads c st)).1
                      else st.params,
            latestVersion := st.latestVersion + 1,
            nBaseSteps := st.nBaseSteps + (if st.hasBase then 1 else 0) }

/-- `step(closure=None)`: in an accumulation sub-batch, bump the counter
and return `None`; on the closing sub-batch of the window, run the
gradient pipeline, invoke the wrapped algorithm once, bump
`latest_version` and rotate the ring when more than one version is
retained.  (`verbose_freq` only logs wall-clock timing and is not
state.) -/
def step (c : Collab) (st : OptState) : OptState × Option ℚ :=
  if st.batchCounter % st.updateInterval ≠ st.updateInterval - 1 then
    ({ st with batchCounter := st.batchCounter + 1 }, none)
  else
    ({ (if 1 < st.numVersions then pushLatest (stepCore c st) else stepCore c st) with
        batchCounter := st.batchCounter + 1 },
     if st.hasBase then (c.baseStep st.params (stepGrads c st)).2 else none)

/-- The construction-time configuration surface of
`OptimizerWithWeightStashing.__init__` (`optim_name` and `optimizer_args`
are folded into `Collab.baseStep`; `verbose_freq` only gates timing logs).
`grads` are the gradients the master parameters carry at construction. -/
structure Config where
  masterParams : List ℚ
  grads : List (Option ℚ)
  modules : List StateDict
  lossScale : ℚ
  clipGrad : Option ℚ
  numVersions : Nat
  macrobatch : Bool
  saveDir : Bool
  stashToCpu : Bool
  fp16 : Bool
deriving DecidableEq, Repr

/-- `initialize_queue()`: append `num_versions` full clones of the current
module state, all tagged with the initial version 0.  (The final
`self.buffered_state_dicts = self.get_from_queue(0)[0]` is rebound before
every use in `step()` and is therefore not separate state.) -/
def initializeQueue (st : OptState) : OptState :=
  (List.range st.numVersions).foldl
    (fun s _ => appendToQueue s (cloneStateDicts s.stashToCpu s.modules) s.latestVersion) st

/-- `__init__`: macrobatching caps the version count at 2 and sets the
update interval to it; an empty master-parameter list leaves
`base_optimizer = None` and prints a warning (the returned flag). -/
def initState (cfg : Config) : OptState :=
  { hasBase := !cfg.masterParams.isEmpty,
    fp16 := cfg.fp16, lossScale := cfg.lossScale, clipGrad := cfg.clipGrad,
    saveDir := cfg.saveDir, stashToCpu := cfg.stashToCpu,
    numVersions := if cfg.macrobatch then min 2 cfg.numVersions else cfg.numVersions,
    updateInterval := if cfg.macrobatch then
      (if cfg.macrobatch then min 2 cfg.numVersions else cfg.numVersions) else 1,
    batchCounter := 0, latestVersion := 0, currentVersion := 0,
    params := cfg.masterParams, grads := cfg.grads, modules := cfg.modules,
    queue := [], store := [], nBaseSteps := 0 }

def init (cfg : Config) : OptState × Bool :=
  (initializeQueue (initState cfg), cfg.masterParams.isEmpty)

/-- States of the optimizer reachable by any sequence of `step`,
`zero_grad`, `load_old_params`, `load_new_params` calls and gradient
writes by backward passes, from a freshly constructed instance. -/
inductive Reach (c : Collab) (cfg : Config) : OptState → Prop where
  | init : Reach c cfg (WS.init cfg).1
  | step {s : OptState} : Reach c cfg s → Reach c cfg (WS.step c s).1
  | zeroGrad {s : OptState} : Reach c cfg s → Reach c cfg (WS.zeroGrad s)
  | loadOld {s : OptState} : Reach c cfg s → Reach c cfg (WS.loadOldParams s)
  | loadNew {s : OptState} : Reach c cfg s → Reach c cfg (WS.loadNewParams s)
  | backward {s : OptState} (g : List (Option ℚ)) :
      Reach c cfg s → Reach c cfg { s with grads := g }

end WS

namespace WS

theorem appendToQueue_frame (st : OptState) (sds : List StateDict) (v : Nat) :
    (appendToQueue st sds v).hasBase = st.hasBase ∧
    (appendToQueue st sds v).fp16 = st.fp16 ∧
    (appendToQueue st sds v).lossScale = st.lossScale ∧
    (appendToQueue st sds v).clipGrad = st.clipGrad ∧
    (appendToQueue st sds v).saveDir = st.saveDir ∧
    (appendToQueue st sds v).stashToCpu = st.stashToCpu ∧
    (appendToQueue st sds v).numVersions = st.numVersions ∧
    (appendToQueue st sds v).updateInterval = st.updateInterval ∧
    (appendToQueue st sds v).batchCounter = st.batchCounter ∧
    (appendToQueue st sds v).latestVersion = st.latestVersion ∧
    (appendToQueue st sds v).currentVersion = st.currentVersion ∧
    (appendToQueue st sds v).params = st.params ∧
    (appendToQueue st sds v).grads = st.grads ∧
    (appendToQueue st sds v).modules = st.modules ∧
    (appendToQueue st sds v).nBaseSteps = st.nBaseSteps := by
  unfold appendToQueue
  split <;> simp

theorem pushLatest_frame (st : OptState) :
    (pushLatest st).hasBase = st.hasBase ∧
    (pushLatest st).fp16 = st.fp16 ∧
    (pushLatest st).lossScale = st.lossScale ∧
    (pushLatest st).clipGrad = st.clipGrad ∧
    (pushLatest st).saveDir = st.saveDir ∧
    (pushLatest st).stashToCpu = st.stashToCpu ∧
    (pushLatest st).numVersions = st.numVersions ∧
    (pushLatest st).updateInterval = st.updateInterval ∧
    (pushLatest st).batchCounter = st.batchCounter ∧
    (pushLatest st).latestVersion = st.latestVersion ∧
    (pushLatest st).currentVersion = st.currentVersion ∧
    (pushLatest st).params = st.params ∧
    (pushLatest st).grads = st.grads ∧
    (pushLatest st).modules = st.modules ∧
    (pushLatest st).nBaseSteps = st.nBaseSteps := by
  unfold pushLatest
  cases h : getFromQueue st 0 with
  | none => simp
  | some bv => exact appendToQueue_frame st _ _

theorem foldlAppend_frame (l : List Nat) (st : OptState) :
    (l.foldl (fun s _ => appendToQueue s (cloneStateDicts s.stashToCpu s.modules) s.latestVersion) st).hasBase = st.hasBase ∧
    (l.foldl (fun s _ => appendToQueue s (cloneStateDicts s.stashToCpu s.modules) s.latestVersion) st).fp16 = st.fp16 ∧
    (l.foldl (fun s _ => appendToQueue s (cloneStateDicts s.stashToCpu s.modules) s.latestVersion) st).lossScale = st.lossScale ∧
    (l.foldl (fun s _ => appendToQueue s (cloneStateDicts s.stashToCpu s.modules) s.latestVersion) st).clipGrad = st.clipGrad ∧
    (l.foldl (fun s _ => appendToQueue s (cloneStateDicts s.stashToCpu s.modules) s.latestVersion) st).saveDir = st.saveDir ∧
    (l.foldl (fun s _ => appendToQueue s (cloneStateDicts s.stashToCpu s.modules) s.latestVersion) st).stashToCpu = st.stashToCpu ∧
    (l.foldl (fun s _ => appendToQueue s (cloneStateDicts s.stashToCpu s.modules) s.latestVersion) st).numVersions = st.numVersions ∧
    (l.foldl (fun s _ => appendToQueue s (cloneStateDicts s.stashToCpu s.modules) s.latestVersion) st).updateInterval = st.updateInterval ∧
    (l.foldl (fun s _ => appendToQueue s (cloneStateDicts s.stashToCpu s.modules) s.latestVersion) st).batchCounter = st.batchCounter ∧
    (l.foldl (fun s _ => appendToQueue s (cloneStateDicts s.stashToCpu s.modules) s.latestVersion) st).latestVersion = st.latestVersion ∧
    (l.foldl (fun s _ => appendToQueue s (cloneStateDicts s.stashToCpu s.modules) s.latestVersion) st).currentVersion = st.currentVersion ∧
    (l.foldl (fun s _ => appendToQueue s (cloneStateDicts s.stashToCpu s.modules) s.latestVersion) st).params = st.params ∧
    (l.foldl (fun s _ => appendToQueue s (cloneStateDicts s.stashToCpu s.modules) s.latestVersion) st).grads = st.grads ∧
    (l.foldl (fun s _ => appendToQueue s (cloneStateDicts s.stashToCpu s.modules) s.latestVersion) st).modules = st.modules ∧
    (l.foldl (fun s _ => appendToQueue s (cloneStateDicts s.stashToCpu s.modules) s.latestVersion) st).nBaseSteps = st.nBaseSteps := by
  induction l generalizing st with
  | nil => simp
  | cons a t ih =>
    simp only [List.foldl_cons]
    have ha := appendToQueue_frame st (cloneStateDicts st.stashToCpu st.modules) st.latestVersion
    have ht := ih (appendToQueue st (cloneStateDicts st.stashToCpu st.modules) st.latestVersion)
    exact ⟨(ht.1).trans ha.1,
           (ht.2.1).trans ha.2.1,
           (ht.2.2.1).trans ha.2.2.1,
           (ht.2.2.2.1).trans ha.2.2.2.1,
           (ht.2.2.2.2.1).trans ha.2.2.2.2.1,
           (ht.2.2.2.2.2.1).trans ha.2.2.2.2.2.1,
           (ht.2.2.2.2.2.2.1).trans ha.2.2.2.2.2.2.1,
           (ht.2.2.2.2.2.2.2.1).trans ha.2.2.2.2.2.2.2.1,
           (ht.2.2.2.2.2.2.2.2.1).trans ha.2.2.2.2.2.2.2.2.1,
           (ht.2.2.2.2.2.2.2.2.2.1).trans ha.2.2.2.2.2.2.2.2.2.1,
           (ht.2.2.2.2.2.2.2.2.2.2.1).trans ha.2.2.2.2.2.2.2.2.2.2.1,
           (ht.2.2.2.2.2.2.2.2.2.2.2.1).trans ha.2.2.2.2.2.2.2.2.2.2.2.1,
           (ht.2.2.2.2.2.2.2.2.2.2.2.2.1).trans ha.2.2.2.2.2.2.2.2.2.2.2.2.1,
           (ht.2.2.2.2.2.2.2.2.2.2.2.2.2.1).trans ha.2.2.2.2.2.2.2.2.2.2.2.2.2.1,
           (ht.2.2.2.2.2.2.2.2.2.2.2.2.2.2).trans ha.2.2.2.2.2.2.2.2.2.2.2.2.2.2⟩

theorem initializeQueue_frame (st : OptState) :
    (initializeQueue st).hasBase = st.hasBase ∧
    (initializeQueue st).fp16 = st.fp16 ∧
    (initializeQueue st).lossScale = st.lossScale ∧
    (initializeQueue st).clipGrad = st.clipGrad ∧
    (initializeQueue st).saveDir = st.saveDir ∧
    (initializeQueue st).stashToCpu = st.stashToCpu ∧
    (initializeQueue st).numVersions = st.numVersions ∧
    (initializeQueue st).updateInterval = st.updateInterval ∧
    (initializeQueue st).batchCounter = st.batchCounter ∧
    (initializeQueue st).latestVersion = st.latestVersion ∧
    (initializeQueue st).currentVersion = st.currentVersion ∧
    (initializeQueue st).params = st.params ∧
    (initializeQueue st).grads = st.grads ∧
    (initializeQueue st).modules = st.modules ∧
    (initializeQueue st).nBaseSteps = st.nBaseSteps :=
  foldlAppend_frame (List.range st.numVersions) st

theorem zeroGrad_frame (st : OptState) :
    (zeroGrad st).hasBase = st.hasBase ∧
    (zeroGrad st).fp16 = st.fp16 ∧
    (zeroGrad st).lossScale = st.lossScale ∧
    (zeroGrad st).clipGrad = st.clipGrad ∧
    (zeroGrad st).saveDir = st.saveDir ∧
    (zeroGrad st).stashToCpu = st.stashToCpu ∧
    (zeroGrad st).numVersions = st.numVersions ∧
    (zeroGrad st).updateInterval = st.updateInterval ∧
    (zeroGrad st).batchCounter = st.batchCounter ∧
    (zeroGrad st).latestVersion = st.latestVersion ∧
    (zeroGrad st).currentVersion = st.currentVersion ∧
    (zeroGrad st).params = st.params ∧
    (zeroGrad st).modules = st.modules ∧
    (zeroGrad st).nBaseSteps = st.nBaseSteps ∧
    (zeroGrad st).queue = st.queue ∧
    (zeroGrad st).store = st.store := by
  unfold zeroGrad
  split <;> simp

theorem loadOldParams_frame (st : OptState) :
    (loadOldParams st).hasBase = st.hasBase ∧
    (loadOldParams st).fp16 = st.fp16 ∧
    (loadOldParams st).lossScale = st.lossScale ∧
    (loadOldParams st).clipGrad = st.clipGrad ∧
    (loadOldParams st).saveDir = st.saveDir ∧
    (loadOldParams st).stashToCpu = st.stashToCpu ∧
    (loadOldParams st).numVersions = st.numVersions ∧
    (loadOldParams st).updateInterval = st.updateInterval ∧
    (loadOldParams st).batchCounter = st.batchCounter ∧
    (loadOldParams st).latestVersion = st.latestVersion ∧
    (loadOldParams st).params = st.params ∧
    (loadOldParams st).grads = st.grads ∧
    (loadOldParams st).nBaseSteps = st.nBaseSteps := by
  unfold loadOldParams
  split
  · cases h : getFromQueue st 0 with
    | none => simp
    | some sv =>
      obtain ⟨sds, v⟩ := sv
      simp
  · simp

theorem loadNewParams_frame (st : OptState) :
    (loadNewParams st).hasBase = st.hasBase ∧
    (loadNewParams st).fp16 = st.fp16 ∧
    (loadNewParams st).lossScale = st.lossScale ∧
    (loadNewParams st).clipGrad = st.clipGrad ∧
    (loadNewParams st).saveDir = st.saveDir ∧
    (loadNewParams st).stashToCpu = st.stashToCpu ∧
    (loadNewParams st).numVersions = st.numVersions ∧
    (loadNewParams st).updateInterval = st.updateInterval ∧
    (loadNewParams st).batchCounter = st.batchCounter ∧
    (loadNewParams st).latestVersion = st.latestVersion ∧
    (loadNewParams st).params = st.params ∧
    (loadNewParams st).grads = st.grads ∧
    (loadNewParams st).nBaseSteps = st.nBaseSteps := by
  unfold loadNewParams
  split
  · cases h : getFromQueue st (st.queue.length - 1) with
    | none => simp
    | some sv =>
      obtain ⟨sds, v⟩ := sv
      simp
  · simp

theorem step_frame (c : Collab) (st : OptState) :
    (step c st).1.hasBase = st.hasBase ∧
    (step c st).1.fp16 = st.fp16 ∧
    (step c st).1.lossScale = st.lossScale ∧
    (step c st).1.clipGrad = st.clipGrad ∧
    (step c st).1.saveDir = st.saveDir ∧
    (step c st).1.stashToCpu = st.stashToCpu ∧
    (step c st).1.numVersions = st.numVersions ∧
    (step c st).1.updateInterval = st.updateInterval ∧
    (step c st).1.batchCounter = st.batchCounter + 1 := by
  unfold step
  split
  · simp
  · split
    · obtain ⟨h1, h2, h3, h4, h5, h6, h7, h8, -, -, -, -, -, -, -⟩ := pushLatest_frame (stepCore c st)
      exact ⟨by rw [h1]; rfl,
             by rw [h2]; rfl,
             by rw [h3]; rfl,
             by rw [h4]; rfl,
             by rw [h5]; rfl,
             by rw [h6]; rfl,
             by rw [h7]; rfl,
             by rw [h8]; rfl,
             rfl⟩
    · exact ⟨rfl, rfl, rfl, rfl, rfl, rfl, rfl, rfl, rfl⟩

end WS

namespace WS

/-- A concrete wrapped algorithm for witness instantiation. -/
def sampleCollab : Collab :=
  { baseStep := fun p _ => (p.map (fun x => x - 1), some 3),
    clipGradNorm := fun g _ => g,
    modelGradsToMaster := fun g => g }

/-- A concrete optimizer state for witness instantiation: `update_interval`
4 (macrobatching with 4 retained versions would give this cadence),
sitting on the closing sub-batch of its first window. -/
def sampleSt : OptState :=
  { hasBase := true, fp16 := false, lossScale := 1, clipGrad := none,
    saveDir := false, stashToCpu := false, numVersions := 2,
    updateInterval := 4, batchCounter := 3, latestVersion := 0,
    currentVersion := 0, params := [10], grads := [some 2, none],
    modules := [[("w", ⟨1, Device.gpu⟩)]],
    queue := [Slot.mem [[("w", ⟨1, Device.gpu⟩)]] 0,
              Slot.mem [[("w", ⟨1, Device.gpu⟩)]] 0],
    store := [], nBaseSteps := 0 }

end WS

/-- C1: with an underlying optimizer present and `update_interval = u ≥ 1`,
a `step()` call made when `batch_counter % u ≠ u - 1` only increments
`batch_counter` and returns `None` (no state besides the counter changes,
in particular no underlying update runs); a call made when
`batch_counter % u = u - 1` invokes the underlying algorithm exactly once
and increments `latest_version` by exactly 1. -/
theorem C1_update_cadence (c : WS.Collab) (st : WS.OptState)
    (hbase : st.hasBase = true) (hu : 1 ≤ st.updateInterval) :
    (st.batchCounter % st.updateInterval ≠ st.updateInterval - 1 →
      WS.step c st = ({ st with batchCounter := st.batchCounter + 1 }, none)) ∧
    (st.batchCounter % st.updateInterval = st.updateInterval - 1 →
      (WS.step c st).1.nBaseSteps = st.nBaseSteps + 1 ∧
      (WS.step c st).1.latestVersion = st.latestVersion + 1) := by
  constructor
  · intro h
    unfold WS.step
    rw [if_pos h]
  · intro h
    unfold WS.step
    rw [if_neg (not_not_intro h)]
    constructor
    · show (if 1 < st.numVersions then WS.pushLatest (WS.stepCore c st)
            else WS.stepCore c st).nBaseSteps = st.nBaseSteps + 1
      split
      · rw [(WS.pushLatest_frame (WS.stepCore c st)).2.2.2.2.2.2.2.2.2.2.2.2.2.2]
        show st.nBaseSteps + (if st.hasBase = true then 1 else 0) = st.nBaseSteps + 1
        rw [if_pos hbase]
      · show st.nBaseSteps + (if st.hasBase = true then 1 else 0) = st.nBaseSteps + 1
        rw [if_pos hbase]
    · show (if 1 < st.numVersions then WS.pushLatest (WS.stepCore c st)
            else WS.stepCore c st).latestVersion = st.latestVersion + 1
      split
      · rw [(WS.pushLatest_frame (WS.stepCore c st)).2.2.2.2.2.2.2.2.2.1]; rfl
      · rfl

/-- Witness for C1: with `update_interval = 4`, a call at `batch_counter = 0`
returns no update and only bumps the counter; the call at
`batch_counter = 3` runs exactly one underlying update and moves
`latest_version` from 0 to 1. -/
theorem C1_update_cadence_witness :
    WS.step WS.sampleCollab { WS.sampleSt with batchCounter := 0 } =
      ({ WS.sampleSt with batchCounter := 1 }, none) ∧
    (WS.step WS.sampleCollab WS.sampleSt).1.nBaseSteps = 1 ∧
    (WS.step WS.sampleCollab WS.sampleSt).1.latestVersion = 1 := by
  have h1 := (C1_update_cadence WS.sampleCollab { WS.sampleSt with batchCounter := 0 }
    rfl (by decide)).1 (by decide)
  have h2 := (C1_update_cadence WS.sampleCollab WS.sampleSt rfl (by decide)).2 rfl
  exact ⟨h1, h2.1, h2.2⟩

/-- C7: with `num_versions == 1`, `load_old_params()` and
`load_new_params()` leave the optimizer state (in particular the live
module state) entirely unchanged, and cannot raise: the guard
`if self.num_versions > 1` skips the whole body. -/
theorem C7_single_version_noop (st : WS.OptState) (h : st.numVersions = 1) :
    WS.loadOldParams st = st ∧ WS.loadNewParams st = st := by
  unfold WS.loadOldParams WS.loadNewParams
  rw [h]
  simp

/-- Witness for C7 at a concrete single-version state. -/
theorem C7_single_version_noop_witness :
    WS.loadOldParams { WS.sampleSt with numVersions := 1 } =
      { WS.sampleSt with numVersions := 1 } ∧
    WS.loadNewParams { WS.sampleSt with numVersions := 1 } =
      { WS.sampleSt with numVersions := 1 } :=
  C7_single_version_noop { WS.sampleSt with numVersions := 1 } rfl

namespace WS

/-- The per-sub-batch usage inside one accumulation window: each sub-batch
calls `zero_grad()`, runs a backward pass that leaves gradients `gs i` on
the parameters (the accumulation arithmetic itself belongs to the autodiff
engine, outside this core), and calls `step()`.  `subBatches c gs st i` is
the state after `i` such sub-batches. -/
def subBatches (c : Collab) (gs : Nat → List (Option ℚ)) (st : OptState) : Nat → OptState
  | 0 => st
  | i + 1 => (step c { zeroGrad (subBatches c gs st i) with grads := gs i }).1

theorem subBatches_proj (c : Collab) (gs : Nat → List (Option ℚ)) (st : OptState) (i : Nat) :
    (subBatches c gs st i).hasBase = st.hasBase ∧
    (subBatches c gs st i).updateInterval = st.updateInterval ∧
    (subBatches c gs st i).batchCounter = st.batchCounter + i := by
  induction i with
  | zero => exact ⟨rfl, rfl, rfl⟩
  | succ i ih =>
    obtain ⟨ih1, ih2, ih3⟩ := ih
    have hz := zeroGrad_frame (subBatches c gs st i)
    refine ⟨?_, ?_, ?_⟩
    · rw [show (subBatches c gs st (i + 1)) =
        (step c { zeroGrad (subBatches c gs st i) with grads := gs i }).1 from rfl,
        (step_frame c _).1]
      show (zeroGrad (subBatches c gs st i)).hasBase = st.hasBase
      rw [hz.1, ih1]
    · rw [show (subBatches c gs st (i + 1)) =
        (step c { zeroGrad (subBatches c gs st i) with grads := gs i }).1 from rfl,
        (step_frame c _).2.2.2.2.2.2.2.1]
      show (zeroGrad (subBatches c gs st i)).updateInterval = st.updateInterval
      rw [hz.2.2.2.2.2.2.2.1, ih2]
    · rw [show (subBatches c gs st (i + 1)) =
        (step c { zeroGrad (subBatches c gs st i) with grads := gs i }).1 from rfl,
        (step_frame c _).2.2.2.2.2.2.2.2]
      show (zeroGrad (subBatches c gs st i)).batchCounter + 1 = st.batchCounter + (i + 1)
      rw [hz.2.2.2.2.2.2.2.2.1, ih3]
      omega

end WS

/-- C5: with an underlying optimizer present, `zero_grad()` clears its
gradients exactly when `batch_counter % update_interval == 0` and is the
identity otherwise; consequently, across the `update_interval` sub-batches
of one accumulation window (each running `zero_grad`, a backward pass and
`step`), only the window's first `zero_grad` clears and the remaining
`update_interval - 1` calls are no-ops. -/
theorem C5_zero_grad_gating (c : WS.Collab) (gs : Nat → List (Option ℚ))
    (st : WS.OptState) (hbase : st.hasBase = true) :
    (st.batchCounter % st.updateInterval = 0 →
      WS.zeroGrad st = { st with grads := st.grads.map (Option.map (fun _ => 0)) }) ∧
    (st.batchCounter % st.updateInterval ≠ 0 → WS.zeroGrad st = st) ∧
    (st.batchCounter % st.updateInterval = 0 →
      ∀ i, 1 ≤ i → i < st.updateInterval →
        WS.zeroGrad (WS.subBatches c gs st i) = WS.subBatches c gs st i) := by
  refine ⟨fun h => ?_, fun h => ?_, fun h i h1 hiu => ?_⟩
  · unfold WS.zeroGrad
    rw [if_pos ⟨hbase, h⟩]
  · unfold WS.zeroGrad
    rw [if_neg (fun hc => h hc.2)]
  · have hp := WS.subBatches_proj c gs st i
    unfold WS.zeroGrad
    rw [if_neg]
    rintro ⟨-, hc⟩
    rw [hp.2.2, hp.2.1] at hc
    have hd1 : st.updateInterval ∣ st.batchCounter := Nat.dvd_of_mod_eq_zero h
    have hd2 : st.updateInterval ∣ st.batchCounter + i := Nat.dvd_of_mod_eq_zero hc
    have hdi : st.updateInterval ∣ i := (Nat.dvd_add_right hd1).mp hd2
    have := Nat.le_of_dvd (Nat.lt_of_lt_of_le Nat.zero_lt_one h1) hdi
    omega

/-- Witness for C5: at a fresh window (`batch_counter = 0`,
`update_interval = 4`) the first `zero_grad` clears; at `batch_counter = 3`
it is a no-op; and sub-batches 1, 2, 3 of the window get no-op
`zero_grad`s. -/
theorem C5_zero_grad_gating_witness :
    WS.zeroGrad { WS.sampleSt with batchCounter := 0 } =
      { WS.sampleSt with
          batchCounter := 0
          grads := WS.sampleSt.grads.map (Option.map (fun _ => 0)) } ∧
    WS.zeroGrad WS.sampleSt = WS.sampleSt ∧
    (∀ i, 1 ≤ i → i < 4 →
      WS.zeroGrad (WS.subBatches WS.sampleCollab (fun _ => [some 1, some 1])
          { WS.sampleSt with batchCounter := 0 } i) =
        WS.subBatches WS.sampleCollab (fun _ => [some 1, some 1])
          { WS.sampleSt with batchCounter := 0 } i) := by
  have h := C5_zero_grad_gating WS.sampleCollab (fun _ => [some 1, some 1])
    { WS.sampleSt with batchCounter := 0 } rfl
  have h' := C5_zero_grad_gating WS.sampleCollab (fun _ => [some 1, some 1])
    WS.sampleSt rfl
  exact ⟨h.1 (by decide), h'.2.1 (by decide), fun i h1 h4 => h.2.2 (by decide) i h1 h4⟩

/-- C6: on a real update step (`batch_counter % update_interval ==
update_interval - 1`), with an underlying optimizer present and no fp16 or
clipping configured, every gradient of every managed parameter
(`param_groups[0]['params']`) is divided by `update_interval` before the
underlying algorithm runs: the gradients left on the parameters are the
original ones divided by `update_interval`, and the underlying update and
its returned loss are computed from exactly those divided gradients. -/
theorem C6_grad_averaging (c : WS.Collab) (st : WS.OptState)
    (hbase : st.hasBase = true) (hfp : st.fp16 = false) (hclip : st.clipGrad = none)
    (hready : st.batchCounter % st.updateInterval = st.updateInterval - 1) :
    (WS.step c st).1.grads =
      st.grads.map (Option.map (fun g => g / (st.updateInterval : ℚ))) ∧
    (WS.step c st).1.params =
      (c.baseStep st.params
        (st.grads.map (Option.map (fun g => g / (st.updateInterval : ℚ))))).1 ∧
    (WS.step c st).2 =
      (c.baseStep st.params
        (st.grads.map (Option.map (fun g => g / (st.updateInterval : ℚ))))).2 := by
  have hG : WS.stepGrads c st =
      st.grads.map (Option.map (fun g => g / (st.updateInterval : ℚ))) := by
    unfold WS.stepGrads
    simp [hfp, hclip, hbase]
  refine ⟨?_, ?_, ?_⟩
  · unfold WS.step
    rw [if_neg (not_not_intro hready)]
    show (if 1 < st.numVersions then WS.pushLatest (WS.stepCore c st)
          else WS.stepCore c st).grads = _
    split
    · rw [(WS.pushLatest_frame (WS.stepCore c st)).2.2.2.2.2.2.2.2.2.2.2.2.1]
      exact hG
    · exact hG
  · unfold WS.step
    rw [if_neg (not_not_intro hready)]
    show (if 1 < st.numVersions then WS.pushLatest (WS.stepCore c st)
          else WS.stepCore c st).params = _
    split
    · rw [(WS.pushLatest_frame (WS.stepCore c st)).2.2.2.2.2.2.2.2.2.2.2.1]
      show (if st.hasBase = true then (c.baseStep st.params (WS.stepGrads c st)).1
            else st.params) = _
      rw [if_pos hbase, hG]
    · show (if st.hasBase = true then (c.baseStep st.params (WS.stepGrads c st)).1
            else st.params) = _
      rw [if_pos hbase, hG]
  · unfold WS.step
    rw [if_neg (not_not_intro hready)]
    show (if st.hasBase = true then (c.baseStep st.params (WS.stepGrads c st)).2
          else none) = _
    rw [if_pos hbase, hG]

/-- Witness for C6: at `sampleSt` (gradients `[2, None]`, interval 4), the
real step leaves gradients `[1/2, None]` and feeds them to the wrapped
algorithm. -/
theorem C6_grad_averaging_witness :
    (WS.step WS.sampleCollab WS.sampleSt).1.grads = [some (1/2 : ℚ), none] ∧
    (WS.step WS.sampleCollab WS.sampleSt).1.params = [9] ∧
    (WS.step WS.sampleCollab WS.sampleSt).2 = some 3 := by
  have h := C6_grad_averaging WS.sampleCollab WS.sampleSt rfl rfl rfl (by decide)
  refine ⟨?_, ?_, ?_⟩
  · rw [h.1]
    norm_num [WS.sampleSt]
  · rw [h.2.1]
    norm_num [WS.sampleSt, WS.sampleCollab]
  · rw [h.2.2]
    norm_num [WS.sampleSt, WS.sampleCollab]

namespace WS

theorem reach_hasBase (c : Collab) (cfg : Config) (s : OptState)
    (h : Reach c cfg s) : s.hasBase = (WS.init cfg).1.hasBase := by
  induction h with
  | init => rfl
  | step h ih => rw [(step_frame c _).1, ih]
  | zeroGrad h ih => rw [(zeroGrad_frame _).1, ih]
  | loadOld h ih => rw [(loadOldParams_frame _).1, ih]
  | loadNew h ih => rw [(loadNewParams_frame _).1, ih]
  | backward g h ih => exact ih

/-- A concrete configuration with no trainable parameters. -/
def emptyCfg : Config :=
  { masterParams := [], grads := [], modules := [[("running_mean", ⟨0, Device.gpu⟩)]],
    lossScale := 1, clipGrad := none, numVersions := 2, macrobatch := false,
    saveDir := false, stashToCpu := false, fp16 := false }

end WS

/-- C8: with an empty master-parameter set, construction completes and
surfaces the warning (`print("Warning: no parameter groups to optimize")`,
the returned flag) instead of raising, `base_optimizer` stays `None`, and
in every thereafter-reachable state `step()` returns `None` and
`zero_grad()` changes nothing: the optimizer is a no-op pass-through. -/
theorem C8_empty_params_noop (cfg : WS.Config) (c : WS.Collab)
    (h : cfg.masterParams = []) :
    (WS.init cfg).2 = true ∧
    (WS.init cfg).1.hasBase = false ∧
    (∀ s, WS.Reach c cfg s → (WS.step c s).2 = none ∧ WS.zeroGrad s = s) := by
  have hb : (WS.init cfg).1.hasBase = false := by
    show (WS.initializeQueue _).hasBase = false
    rw [(WS.initializeQueue_frame _).1]
    show (!cfg.masterParams.isEmpty) = false
    rw [h]
    rfl
  refine ⟨?_, hb, fun s hs => ?_⟩
  · show cfg.masterParams.isEmpty = true
    rw [h]
    rfl
  · have hsb : s.hasBase = false := (WS.reach_hasBase c cfg s hs).trans hb
    constructor
    · unfold WS.step
      split
      · rfl
      · show (if s.hasBase = true then _ else none) = none
        rw [hsb]
        simp
    · unfold WS.zeroGrad
      rw [if_neg]
      rintro ⟨h1, -⟩
      rw [hsb] at h1
      cases h1

/-- Witness for C8 at the empty configuration, with the reachable state
taken to be the freshly constructed one. -/
theorem C8_empty_params_noop_witness :
    (WS.init WS.emptyCfg).2 = true ∧
    (WS.init WS.emptyCfg).1.hasBase = false ∧
    (WS.step WS.sampleCollab (WS.init WS.emptyCfg).1).2 = none ∧
    WS.zeroGrad (WS.init WS.emptyCfg).1 = (WS.init WS.emptyCfg).1 := by
  have h := C8_empty_params_noop WS.emptyCfg WS.sampleCollab rfl
  have h3 := h.2.2 _ WS.Reach.init
  exact ⟨h.1, h.2.1, h3.1, h3.2⟩

namespace WS

theorem sdLookup_rebindSpecial (stash : Bool) (m sd : StateDict) (k : String) :
    sdLookup (rebindSpecial stash m sd) k =
      (sdLookup sd k).map (fun v =>
        if hasRunning k || hasMask k then
          match sdLookup m k with
          | some cur => if stash then cur.cuda else cur
          | none => v
        else v) := by
  induction sd with
  | nil => rfl
  | cons kv t ih =>
    unfold rebindSpecial at *
    simp only [List.map_cons, sdLookup]
    by_cases h : kv.1 == k
    · have hk : kv.1 = k := eq_of_beq h
      subst hk
      simp
    · simp only [h, if_false]
      exact ih

theorem sdLookup_loadStateDict (m sd : StateDict) (k : String) :
    sdLookup (loadStateDict m sd) k =
      (sdLookup m k).map (fun v =>
        match sdLookup sd k with
        | some w => v.copy_ w
        | none => v) := by
  induction m with
  | nil => rfl
  | cons kv t ih =>
    unfold loadStateDict at *
    simp only [List.map_cons, sdLookup]
    by_cases h : kv.1 == k
    · have hk : kv.1 = k := eq_of_beq h
      subst hk
      simp
    · simp only [h, if_false]
      exact ih

theorem setParamsPair_live (stash : Bool) (sd m : StateDict) (k : String) (lv : Tensor)
    (hk : hasRunning k = true ∨ hasMask k = true)
    (hlv : sdLookup m k = some lv) :
    sdLookup (setParamsPair stash sd m).2 k = some lv := by
  have hsp : (hasRunning k || hasMask k) = true := by
    rcases hk with h | h <;> simp [h]
  show sdLookup (loadStateDict m (rebindSpecial stash m sd)) k = some lv
  rw [sdLookup_loadStateDict, hlv, sdLookup_rebindSpecial]
  cases hsd : sdLookup sd k with
  | none => simp
  | some sv =>
    simp only [Option.map_some', hsp, if_true, hlv]
    cases lv with
    | mk d dev => cases stash <;> simp [Tensor.copy_, Tensor.cuda]

theorem setParamsPair_snapshot (stash : Bool) (sd m : StateDict) (k : String)
    (sv lv : Tensor) (hk : hasRunning k = true ∨ hasMask k = true)
    (hsd : sdLookup sd k = some sv) (hlv : sdLookup m k = some lv) :
    sdLookup (setParamsPair stash sd m).1 k =
      some (if stash then lv.cuda else lv) := by
  have hsp : (hasRunning k || hasMask k) = true := by
    rcases hk with h | h <;> simp [h]
  show sdLookup (rebindSpecial stash m sd) k = _
  rw [sdLookup_rebindSpecial, hsd]
  simp only [Option.map_some', hsp, if_true, hlv]

theorem get?_zip {α β : Type} (l1 : List α) (l2 : List β) (n : Nat) :
    (l1.zip l2).get? n =
      (l1.get? n).bind (fun a => (l2.get? n).map (fun b => (a, b))) := by
  induction l1 generalizing l2 n with
  | nil => simp
  | cons a t ih =>
    cases l2 with
    | nil => simp
    | cons b t2 =>
      cases n with
      | zero => simp
      | succ n => simpa using ih t2 n

end WS

namespace WS

theorem setParams_live (stash : Bool) (sds mods : List StateDict) (i : Nat)
    (k : String) (m : StateDict) (lv : Tensor)
    (hk : hasRunning k = true ∨ hasMask k = true)
    (hm : mods.get? i = some m) (hlv : sdLookup m k = some lv) :
    ((setParams stash sds mods).2.get? i).bind (fun d => sdLookup d k) = some lv := by
  have him : i < mods.length := by
    by_contra hlt
    rw [List.get?_eq_none.mpr (Nat.le_of_not_lt hlt)] at hm
    cases hm
  by_cases hi : i < sds.length
  · show ((((sds.zip mods).map (fun p => setParamsPair stash p.1 p.2)).map Prod.snd ++
        mods.drop sds.length).get? i).bind (fun d => sdLookup d k) = some lv
    rw [List.get?_append (by
      simp only [List.length_map, List.length_zip]
      omega)]
    cases hsd : sds.get? i with
    | none =>
      rw [List.get?_eq_none] at hsd
      omega
    | some sd =>
      rw [List.get?_map, List.get?_map, get?_zip, hsd, hm]
      simpa using setParamsPair_live stash sd m k lv hk hlv
  · show ((((sds.zip mods).map (fun p => setParamsPair stash p.1 p.2)).map Prod.snd ++
        mods.drop sds.length).get? i).bind (fun d => sdLookup d k) = some lv
    rw [List.get?_append_right (by
      simp only [List.length_map, List.length_zip]
      omega), List.get?_drop]
    have hlen : ((((sds.zip mods).map (fun p => setParamsPair stash p.1 p.2)).map
        Prod.snd)).length = sds.length := by
      simp only [List.length_map, List.length_zip]
      omega
    rw [hlen, show sds.length + (i - sds.length) = i from by omega, hm]
    simpa using hlv

theorem setParams_snapshot (stash : Bool) (sds mods : List StateDict) (i : Nat)
    (k : String) (sd m : StateDict) (sv lv : Tensor)
    (hk : hasRunning k = true ∨ hasMask k = true)
    (hsd : sds.get? i = some sd) (hsv : sdLookup sd k = some sv)
    (hm : mods.get? i = some m) (hlv : sdLookup m k = some lv) :
    ((setParams stash sds mods).1.get? i).bind (fun d => sdLookup d k) =
      some (if stash then lv.cuda else lv) := by
  have hi : i < sds.length := by
    by_contra hlt
    rw [List.get?_eq_none.mpr (Nat.le_of_not_lt hlt)] at hsd
    cases hsd
  have him : i < mods.length := by
    by_contra hlt
    rw [List.get?_eq_none.mpr (Nat.le_of_not_lt hlt)] at hm
    cases hm
  show ((((sds.zip mods).map (fun p => setParamsPair stash p.1 p.2)).map Prod.fst ++
      sds.drop mods.length).get? i).bind (fun d => sdLookup d k) = _
  rw [List.get?_append (by
    simp only [List.length_map, List.length_zip]
    omega)]
  rw [List.get?_map, List.get?_map, get?_zip, hsd, hm]
  simpa using setParamsPair_snapshot stash sd m k sv lv hk hsv hlv
  
end WS

namespace WS

theorem get?_set_self {α : Type} (l : List α) (n : Nat) (a : α) (h : n < l.length) :
    (l.set n a).get? n = some a := by
  induction l generalizing n with
  | nil => cases h
  | cons x t ih =>
    cases n with
    | zero => rfl
    | succ n => exact ih n (Nat.lt_of_succ_lt_succ h)

theorem get?_set_ne {α : Type} (l : List α) (n : Nat) (a : α) (m : Nat) (h : n ≠ m) :
    (l.set n a).get? m = l.get? m := by
  induction l generalizing n m with
  | nil => rfl
  | cons x t ih =>
    cases n with
    | zero =>
      cases m with
      | zero => exact absurd rfl h
      | succ m => rfl
    | succ n =>
      cases m with
      | zero => rfl
      | succ m => exact ih n m (fun he => h (by rw [he]))

/-- Live modules and a stashed snapshot for the restore witnesses. -/
def c4Mods : List StateDict :=
  [[("bn.running_mean", ⟨2, Device.gpu⟩), ("layer.mask", ⟨3, Device.gpu⟩),
    ("w", ⟨4, Device.gpu⟩)]]

/-- A snapshot whose captured values differ from the live ones. -/
def c4Sds : List StateDict :=
  [[("bn.running_mean", ⟨5, Device.cpu⟩), ("layer.mask", ⟨7, Device.cpu⟩),
    ("w", ⟨9, Device.cpu⟩)]]

end WS

/-- C4: restoring a snapshot with `set_params` leaves every live module
field whose name contains `running_`, and every field whose name contains
`mask`, exactly equal to the live module's pre-restore value (the snapshot
entry is first rebound to the live tensor — moved back to the GPU when
stashing to CPU — and `load_state_dict`'s in-place copy then reproduces
the live value and device exactly); the restored value of such a field
does not depend on the snapshot at all. -/
theorem C4_restore_preserves_special (stash : Bool) (sds mods : List WS.StateDict)
    (i : Nat) (k : String) (m : WS.StateDict) (lv : WS.Tensor)
    (hk : WS.hasRunning k = true ∨ WS.hasMask k = true)
    (hm : mods.get? i = some m) (hlv : WS.sdLookup m k = some lv) :
    ((WS.setParams stash sds mods).2.get? i).bind (fun d => WS.sdLookup d k) = some lv ∧
    (∀ sds', ((WS.setParams stash sds' mods).2.get? i).bind (fun d => WS.sdLookup d k) =
      ((WS.setParams stash sds mods).2.get? i).bind (fun d => WS.sdLookup d k)) :=
  ⟨WS.setParams_live stash sds mods i k m lv hk hm hlv,
   fun sds' => (WS.setParams_live stash sds' mods i k m lv hk hm hlv).trans
     (WS.setParams_live stash sds mods i k m lv hk hm hlv).symm⟩

/-- Witness for C4: a CPU-stashed snapshot holding stale values 5 and 7 for
a running statistic and a mask is restored; both live fields keep their
live values 2 and 3 on the GPU. -/
theorem C4_restore_preserves_special_witness :
    ((WS.setParams true WS.c4Sds WS.c4Mods).2.get? 0).bind
        (fun d => WS.sdLookup d "bn.running_mean") =
      some ⟨2, WS.Device.gpu⟩ ∧
    ((WS.setParams true WS.c4Sds WS.c4Mods).2.get? 0).bind
        (fun d => WS.sdLookup d "layer.mask") =
      some ⟨3, WS.Device.gpu⟩ :=
  ⟨(C4_restore_preserves_special true WS.c4Sds WS.c4Mods 0 "bn.running_mean" _ _
      (Or.inl (by decide)) rfl (by decide)).1,
   (C4_restore_preserves_special true WS.c4Sds WS.c4Mods 0 "layer.mask" _ _
      (Or.inr (by decide)) rfl (by decide)).1⟩

/-- C10: `set_params` mutates the snapshot it is given — each entry whose
key contains `running_` or `mask` is rebound to the live module's current
tensor, moved to the GPU when `stash_to_cpu` is set — and, for an
in-memory ring (`save_dir = None`), the dict objects returned by
`get_from_queue(0)` are the ring's own, so after `load_old_params()` the
oldest ring slot holds the mutated snapshot: its special-key entries now
carry the live values instead of the originally captured ones. -/
theorem C10_restore_mutates_snapshot (st : WS.OptState) (sds : List WS.StateDict)
    (ver i : Nat) (k : String) (sd m : WS.StateDict) (sv lv : WS.Tensor)
    (hsave : st.saveDir = false) (hnv : 1 < st.numVersions)
    (hq : st.queue.get? 0 = some (WS.Slot.mem sds ver))
    (hk : WS.hasRunning k = true ∨ WS.hasMask k = true)
    (hsd : sds.get? i = some sd) (hsv : WS.sdLookup sd k = some sv)
    (hm : st.modules.get? i = some m) (hlv : WS.sdLookup m k = some lv) :
    (((WS.setParams st.stashToCpu sds st.modules).1.get? i).bind
        (fun d => WS.sdLookup d k) =
      some (if st.stashToCpu then lv.cuda else lv)) ∧
    (WS.loadOldParams st).queue.get? 0 =
      some (WS.Slot.mem (WS.setParams st.stashToCpu sds st.modules).1 ver) := by
  have hlen : 0 < st.queue.length := by
    by_contra hl
    rw [List.get?_eq_none.mpr (Nat.le_of_not_lt hl)] at hq
    cases hq
  constructor
  · exact WS.setParams_snapshot st.stashToCpu sds st.modules i k sd m sv lv hk hsd hsv hm hlv
  · unfold WS.loadOldParams
    rw [if_pos hnv]
    have hg : WS.getFromQueue st 0 = some (sds, ver) := by
      unfold WS.getFromQueue
      rw [hq]
    rw [hg]
    show (if st.saveDir then st.queue
          else st.queue.set 0 (WS.Slot.mem (WS.setParams st.stashToCpu sds st.modules).1 ver)).get? 0 = _
    rw [hsave]
    show (st.queue.set 0 (WS.Slot.mem (WS.setParams st.stashToCpu sds st.modules).1 ver)).get? 0 = _
    exact WS.get?_set_self st.queue 0 _ hlen

/-- Witness for C10: restoring the oldest snapshot of a CPU-stashing,
in-memory two-slot optimizer rebinds the mask entry of the ring's oldest
slot to the live GPU tensor (value 3), discarding the captured value 7. -/
theorem C10_restore_mutates_snapshot_witness :
    (((WS.setParams true WS.c4Sds WS.c4Mods).1.get? 0).bind
        (fun d => WS.sdLookup d "layer.mask") =
      some (WS.Tensor.cuda ⟨3, WS.Device.gpu⟩)) ∧
    (WS.loadOldParams
        { WS.sampleSt with
            stashToCpu := true
            modules := WS.c4Mods
            queue := [WS.Slot.mem WS.c4Sds 0, WS.Slot.mem WS.c4Sds 0] }).queue.get? 0 =
      some (WS.Slot.mem (WS.setParams true WS.c4Sds WS.c4Mods).1 0) := by
  have h := C10_restore_mutates_snapshot
    { WS.sampleSt with
        stashToCpu := true
        modules := WS.c4Mods
        queue := [WS.Slot.mem WS.c4Sds 0, WS.Slot.mem WS.c4Sds 0] }
    WS.c4Sds 0 0 "layer.mask" _ _ ⟨7, WS.Device.cpu⟩ ⟨3, WS.Device.gpu⟩
    rfl (by decide) rfl (Or.inr (by decide)) rfl (by decide) rfl (by decide)
  exact ⟨h.1, h.2⟩

namespace WS

/-- The version tag the ring's slot `i` (oldest = slot 0) actually carries
as a function of `latest_version = t`: with a single retained version,
`step` never pushes and the initial tag 0 stays forever; with more, slot
`i` carries `max 0 (t + 1 + i - num_versions)` (truncated subtraction) —
all slots start at tag 0 and become contiguous only after the ring has
been refilled. -/
def claimTag (n t i : Nat) : Nat := if n = 1 then 0 else t + 1 + i - n

theorem claimTag_zero (n i : Nat) (h : i < n) : claimTag n 0 i = 0 := by
  unfold claimTag
  split
  · rfl
  · omega

theorem claimTag_shift (n t i : Nat) (hn : 1 < n) :
    claimTag n t (i + 1) = claimTag n (t + 1) i := by
  unfold claimTag
  rw [if_neg (by omega), if_neg (by omega)]
  omega

theorem claimTag_last (n t : Nat) (hn : 1 < n) :
    claimTag n (t + 1) (n - 1) = t + 1 := by
  unfold claimTag
  rw [if_neg (by omega)]
  omega

theorem claimTag_mod_ne (n t j : Nat) (hn : 1 < n) (h1 : 1 ≤ j) (h2 : j < n) :
    claimTag n t j % n ≠ (t + 1) % n := by
  have hv : claimTag n t j = t + 1 + j - n := by
    unfold claimTag
    rw [if_neg (by omega)]
  rw [hv]
  rcases le_or_lt (t + 1 + j) n with hA | hB
  · have h0 : t + 1 + j - n = 0 := by omega
    rw [h0, Nat.zero_mod]
    have ht : t + 1 < n := by omega
    rw [Nat.mod_eq_of_lt ht]
    omega
  · have hvn : (t + 1 + j - n) + n = t + 1 + j := by omega
    rw [show (t + 1 + j - n) % n = (t + 1 + j) % n from by
      conv_rhs => rw [← hvn]
      rw [Nat.add_mod_right]]
    intro heq
    have hmod : Nat.ModEq n (t + 1 + j) (t + 1) := heq
    have hj0 : Nat.ModEq n j 0 := Nat.ModEq.add_left_cancel' (t + 1) hmod
    have : j % n = 0 % n := hj0
    rw [Nat.mod_eq_of_lt h2, Nat.zero_mod] at this
    omega

theorem get?_replicate {α : Type} (a : α) (j i : Nat) (h : i < j) :
    (List.replicate j a).get? i = some a := by
  induction j generalizing i with
  | zero => cases h
  | succ j ih =>
    cases i with
    | zero => rfl
    | succ i => exact ih i (Nat.lt_of_succ_lt_succ h)

theorem storeLookup_cons (k' : Nat) (v : List StateDict × Nat)
    (s : List (Nat × (List StateDict × Nat))) (k : Nat) :
    storeLookup ((k', v) :: s) k = if k' == k then some v else storeLookup s k := by
  unfold storeLookup
  by_cases h : (k' == k) = true <;> simp [List.find?, h]

theorem dequeAppend_replicate (n j : Nat) (s : Slot) (hj : j ≤ n) :
    dequeAppend n (List.replicate j s) s = List.replicate (min (j + 1) n) s := by
  unfold dequeAppend
  rw [List.length_replicate]
  by_cases hn : n = 0
  · rw [if_pos hn]
    subst hn
    rw [Nat.min_eq_right (by omega)]
    rfl
  · rw [if_neg hn]
    by_cases hjn : j < n
    · rw [if_pos hjn, ← List.replicate_succ', Nat.min_eq_left (by omega)]
    · rw [if_neg hjn]
      have hje : j = n := by omega
      subst hje
      rw [show j + 1 - j = 1 from by omega, List.drop_replicate, ← List.replicate_succ',
        show j - 1 + 1 = j from by omega, Nat.min_eq_right (by omega)]

end WS

namespace WS

/-- Well-formedness of ring slot `i`, carrying tag
`claimTag num_versions latest_version i`: in memory the slot is a
`(state_dicts, version)` pair; with `save_dir` set it is the blob key
`tag % num_versions` and the stored blob carries the tag. -/
def slotOK (st : OptState) (i : Nat) : Prop :=
  if st.saveDir then
    ∃ sds, st.queue.get? i =
        some (Slot.file (claimTag st.numVersions st.latestVersion i % st.numVersions)) ∧
      storeLookup st.store (claimTag st.numVersions st.latestVersion i % st.numVersions) =
        some (sds, claimTag st.numVersions st.latestVersion i)
  else
    ∃ sds, st.queue.get? i =
      some (Slot.mem sds (claimTag st.numVersions st.latestVersion i))

/-- The ring invariant: the deque is always full (`num_versions` slots) and
slot `i` carries tag `claimTag num_versions latest_version i`. -/
def RingInv (st : OptState) : Prop :=
  1 ≤ st.numVersions ∧ st.queue.length = st.numVersions ∧
  ∀ i, i < st.numVersions → slotOK st i

theorem ringInv_congr {a b : OptState} (h : RingInv a)
    (hq : b.queue = a.queue) (hs : b.store = a.store) (hsd : b.saveDir = a.saveDir)
    (hn : b.numVersions = a.numVersions) (hl : b.latestVersion = a.latestVersion) :
    RingInv b := by
  obtain ⟨h1, h2, h3⟩ := h
  refine ⟨by rw [hn]; exact h1, by rw [hq, hn]; exact h2, fun i hi => ?_⟩
  have hx := h3 i (by rw [hn] at hi; exact hi)
  unfold slotOK at hx ⊢
  rw [hsd, hn, hl, hq, hs]
  exact hx

theorem initQueue_aux (l : List Nat) (st : OptState) (j : Nat)
    (hn1 : 1 ≤ st.numVersions)
    (hlv : st.latestVersion = 0) (hj : j ≤ st.numVersions)
    (hq : st.queue = List.replicate j (if st.saveDir then Slot.file 0
          else Slot.mem (cloneStateDicts st.stashToCpu st.modules) 0))
    (hs : st.saveDir = true → 1 ≤ j →
          storeLookup st.store 0 = some (cloneStateDicts st.stashToCpu st.modules, 0)) :
    (l.foldl (fun s _ => appendToQueue s (cloneStateDicts s.stashToCpu s.modules)
        s.latestVersion) st).queue
        = List.replicate (min (j + l.length) st.numVersions)
            (if st.saveDir then Slot.file 0
             else Slot.mem (cloneStateDicts st.stashToCpu st.modules) 0) ∧
    (st.saveDir = true → 1 ≤ j + l.length →
      storeLookup (l.foldl (fun s _ => appendToQueue s
          (cloneStateDicts s.stashToCpu s.modules) s.latestVersion) st).store 0
        = some (cloneStateDicts st.stashToCpu st.modules, 0)) := by
  induction l generalizing st j with
  | nil =>
    simp only [List.foldl_nil, List.length_nil, Nat.add_zero]
    rw [Nat.min_eq_left hj]
    exact ⟨hq, hs⟩
  | cons a l ih =>
    simp only [List.foldl_cons, List.length_cons]
    have hq' : (appendToQueue st (cloneStateDicts st.stashToCpu st.modules)
        st.latestVersion).queue
        = List.replicate (min (j + 1) st.numVersions)
            (if st.saveDir then Slot.file 0
             else Slot.mem (cloneStateDicts st.stashToCpu st.modules) 0) := by
      unfold appendToQueue
      by_cases hsd : st.saveDir = true
      · rw [if_pos hsd] at hq ⊢
        show dequeAppend st.numVersions st.queue
            (Slot.file (st.latestVersion % st.numVersions)) = _
        rw [hlv, Nat.zero_mod, hq, if_pos hsd]
        exact dequeAppend_replicate st.numVersions j (Slot.file 0) hj
      · rw [if_neg hsd] at hq ⊢
        have hsd' : st.saveDir = false := by
          cases hb : st.saveDir
          · rfl
          · exact absurd hb hsd
        rw [if_neg hsd]
        show dequeAppend st.numVersions st.queue
            (Slot.mem (cloneStateDicts st.stashToCpu st.modules) st.latestVersion) = _
        rw [hlv, hq]
        exact dequeAppend_replicate st.numVersions j _ hj
    have hs' : (appendToQueue st (cloneStateDicts st.stashToCpu st.modules)
        st.latestVersion).saveDir = true → 1 ≤ min (j + 1) st.numVersions →
        storeLookup (appendToQueue st (cloneStateDicts st.stashToCpu st.modules)
          st.latestVersion).store 0
          = some (cloneStateDicts st.stashToCpu st.modules, 0) := by
      intro hsd _
      rw [(appendToQueue_frame st _ _).2.2.2.2.1] at hsd
      unfold appendToQueue
      rw [if_pos hsd]
      show storeLookup ((st.latestVersion % st.numVersions,
        (cloneStateDicts st.stashToCpu st.modules, st.latestVersion)) :: st.store) 0 = _
      rw [hlv, Nat.zero_mod, storeLookup_cons]
      rfl
    have fr := appendToQueue_frame st (cloneStateDicts st.stashToCpu st.modules)
      st.latestVersion
    obtain ⟨c1, c2⟩ := ih (appendToQueue st (cloneStateDicts st.stashToCpu st.modules)
        st.latestVersion) (min (j + 1) st.numVersions)
      (by rw [fr.2.2.2.2.2.2.1]; exact hn1)
      (by rw [fr.2.2.2.2.2.2.2.2.2.1]; exact hlv)
      (by rw [fr.2.2.2.2.2.2.1]; exact Nat.min_le_right _ _)
      (by rw [fr.2.2.2.2.1, fr.2.2.2.2.2.1, fr.2.2.2.2.2.2.2.2.2.2.2.2.2.1]; exact hq')
      (by
        rw [fr.2.2.2.2.1, fr.2.2.2.2.2.1, fr.2.2.2.2.2.2.2.2.2.2.2.2.2.1]
        intro ha hb
        exact hs' (by rw [fr.2.2.2.2.1]; exact ha) hb)
    rw [fr.2.2.2.2.1, fr.2.2.2.2.2.1, fr.2.2.2.2.2.2.2.2.2.2.2.2.2.1,
      fr.2.2.2.2.2.2.1] at c1
    rw [fr.2.2.2.2.1, fr.2.2.2.2.2.1, fr.2.2.2.2.2.2.2.2.2.2.2.2.2.1] at c2
    constructor
    · rw [c1, show min (min (j + 1) st.numVersions + l.length) st.numVersions
        = min (j + (l.length + 1)) st.numVersions from by omega]
    · intro ha hb
      exact c2 ha (by omega)

end WS

namespace WS

theorem initState_numVersions_pos (cfg : Config) (hn : 1 ≤ cfg.numVersions) :
    1 ≤ (initState cfg).numVersions := by
  show 1 ≤ (if cfg.macrobatch then min 2 cfg.numVersions else cfg.numVersions)
  split <;> omega

theorem ringInv_init (cfg : Config) (hn : 1 ≤ cfg.numVersions) :
    RingInv (init cfg).1 := by
  have hn1 := initState_numVersions_pos cfg hn
  obtain ⟨hqf, hsf⟩ := initQueue_aux (List.range (initState cfg).numVersions)
    (initState cfg) 0 hn1 rfl (Nat.zero_le _) rfl (fun _ h => absurd h (by omega))
  have fr := initializeQueue_frame (initState cfg)
  show RingInv (initializeQueue (initState cfg))
  have hqueue : (initializeQueue (initState cfg)).queue =
      List.replicate (initState cfg).numVersions
        (if (initState cfg).saveDir then Slot.file 0
         else Slot.mem (cloneStateDicts (initState cfg).stashToCpu
           (initState cfg).modules) 0) := by
    show (((List.range (initState cfg).numVersions)).foldl
        (fun s _ => appendToQueue s (cloneStateDicts s.stashToCpu s.modules)
          s.latestVersion) (initState cfg)).queue = _
    rw [hqf, List.length_range]
    congr 1
    omega
  refine ⟨?_, ?_, fun i hi => ?_⟩
  · rw [fr.2.2.2.2.2.2.1]
    exact hn1
  · rw [hqueue, List.length_replicate, fr.2.2.2.2.2.2.1]
  · have hi' : i < (initState cfg).numVersions := by
      rw [fr.2.2.2.2.2.2.1] at hi
      exact hi
    have htag : claimTag (initializeQueue (initState cfg)).numVersions
        (initializeQueue (initState cfg)).latestVersion i = 0 := by
      rw [fr.2.2.2.2.2.2.1, fr.2.2.2.2.2.2.2.2.2.1]
      exact claimTag_zero _ i hi'
    unfold slotOK
    cases hsd : (initializeQueue (initState cfg)).saveDir with
    | false =>
      rw [if_neg Bool.false_ne_true]
      have hsd' : (initState cfg).saveDir = false := by
        rw [← fr.2.2.2.2.1]
        exact hsd
      refine ⟨cloneStateDicts (initState cfg).stashToCpu (initState cfg).modules, ?_⟩
      rw [hqueue, htag, hsd', if_neg Bool.false_ne_true]
      exact get?_replicate _ _ _ hi'
    | true =>
      rw [if_pos rfl]
      have hsd' : (initState cfg).saveDir = true := by
        rw [← fr.2.2.2.2.1]
        exact hsd
      refine ⟨cloneStateDicts (initState cfg).stashToCpu (initState cfg).modules, ?_, ?_⟩
      · rw [hqueue, htag, hsd', if_pos rfl, Nat.zero_mod]
        exact get?_replicate _ _ _ hi'
      · rw [htag, Nat.zero_mod]
        have := hsf hsd' (by rw [List.length_range]; omega)
        show storeLookup (((List.range (initState cfg).numVersions)).foldl
            (fun s _ => appendToQueue s (cloneStateDicts s.stashToCpu s.modules)
              s.latestVersion) (initState cfg)).store 0 = _
        exact this

end WS

namespace WS

theorem claimTag_one (t i : Nat) : claimTag 1 t i = 0 := by
  unfold claimTag
  rw [if_pos rfl]

theorem dropAppend_get?_lt {α : Type} (q : List α) (x : α) (n i : Nat)
    (hlen : q.length = n) (hi : i < n - 1) :
    (q.drop 1 ++ [x]).get? i = q.get? (1 + i) := by
  rw [List.get?_append (by rw [List.length_drop, hlen]; omega), List.get?_drop]

theorem dropAppend_get?_last {α : Type} (q : List α) (x : α) (n : Nat)
    (hlen : q.length = n) (hn : 1 ≤ n) :
    (q.drop 1 ++ [x]).get? (n - 1) = some x := by
  have h1 : (q.drop 1).length = n - 1 := by
    rw [List.length_drop, hlen]
  rw [List.get?_append_right (by omega), h1, Nat.sub_self]
  rfl

theorem ringInv_zeroGrad (st : OptState) (h : RingInv st) : RingInv (zeroGrad st) := by
  have fr := zeroGrad_frame st
  exact ringInv_congr h fr.2.2.2.2.2.2.2.2.2.2.2.2.2.2.1 fr.2.2.2.2.2.2.2.2.2.2.2.2.2.2.2
    fr.2.2.2.2.1 fr.2.2.2.2.2.2.1 fr.2.2.2.2.2.2.2.2.2.1

end WS

namespace WS

theorem ringInv_push (c : Collab) (st : OptState) (hnv : 1 < st.numVersions)
    (h : RingInv st) : RingInv (pushLatest (stepCore c st)) := by
  obtain ⟨h1, h2, h3⟩ := h
  have h0 := h3 0 (by omega)
  unfold slotOK at h0
  unfold pushLatest
  cases hsd : st.saveDir with
  | false =>
    rw [if_neg (by rw [hsd]; exact Bool.false_ne_true)] at h0
    obtain ⟨sds0, hq0⟩ := h0
    have hget : getFromQueue (stepCore c st) 0 =
        some (sds0, claimTag st.numVersions st.latestVersion 0) := by
      show getFromQueue st 0 = _
      unfold getFromQueue
      rw [hq0]
    rw [hget]
    show RingInv (appendToQueue (stepCore c st)
      (getParamsNoClone st.stashToCpu sds0 st.modules) (st.latestVersion + 1))
    unfold appendToQueue
    have hsdS : (stepCore c st).saveDir = false := hsd
    rw [if_neg (by rw [hsdS]; exact Bool.false_ne_true)]
    show RingInv { stepCore c st with queue := (dequeAppend st.numVersions st.queue
      (Slot.mem (getParamsNoClone st.stashToCpu sds0 st.modules) (st.latestVersion + 1))) }
    have hda : dequeAppend st.numVersions st.queue
        (Slot.mem (getParamsNoClone st.stashToCpu sds0 st.modules) (st.latestVersion + 1))
        = st.queue.drop 1 ++
          [Slot.mem (getParamsNoClone st.stashToCpu sds0 st.modules) (st.latestVersion + 1)] := by
      unfold dequeAppend
      rw [if_neg (by omega), h2, if_neg (by omega),
        show st.numVersions + 1 - st.numVersions = 1 from by omega]
    rw [hda]
    refine ⟨?_, ?_, fun i hi => ?_⟩
    · show 1 ≤ st.numVersions
      omega
    · show (st.queue.drop 1 ++ [_]).length = st.numVersions
      rw [List.length_append, List.length_drop, h2]
      simp
      omega
    · have hiN : i < st.numVersions := hi
      unfold slotOK
      rw [if_neg (by
        show ¬((stepCore c st).saveDir = true)
        rw [hsdS]
        exact Bool.false_ne_true)]
      show ∃ sds, (st.queue.drop 1 ++
          [Slot.mem (getParamsNoClone st.stashToCpu sds0 st.modules)
            (st.latestVersion + 1)]).get? i =
        some (Slot.mem sds (claimTag st.numVersions (st.latestVersion + 1) i))
      rcases lt_or_ge i (st.numVersions - 1) with hlt | hge
      · have hq1 := h3 (1 + i) (by omega)
        unfold slotOK at hq1
        rw [if_neg (by rw [hsd]; exact Bool.false_ne_true)] at hq1
        obtain ⟨sdsi, hqi⟩ := hq1
        refine ⟨sdsi, ?_⟩
        rw [dropAppend_get?_lt st.queue _ st.numVersions i h2 hlt, hqi,
          show claimTag st.numVersions st.latestVersion (1 + i)
            = claimTag st.numVersions (st.latestVersion + 1) i from by
              rw [Nat.add_comm 1 i]
              exact claimTag_shift st.numVersions st.latestVersion i hnv]
      · have hieq : i = st.numVersions - 1 := by omega
        subst hieq
        refine ⟨getParamsNoClone st.stashToCpu sds0 st.modules, ?_⟩
        rw [dropAppend_get?_last st.queue _ st.numVersions h2 (by omega),
          claimTag_last st.numVersions st.latestVersion hnv]
  | true =>
    rw [if_pos hsd] at h0
    obtain ⟨sds0, hq0, hst0⟩ := h0
    have hget : getFromQueue (stepCore c st) 0 =
        some (sds0, claimTag st.numVersions st.latestVersion 0) := by
      show getFromQueue st 0 = _
      unfold getFromQueue
      rw [hq0]
      exact hst0
    rw [hget]
    show RingInv (appendToQueue (stepCore c st)
      (getParamsNoClone st.stashToCpu sds0 st.modules) (st.latestVersion + 1))
    unfold appendToQueue
    have hsdS : (stepCore c st).saveDir = true := hsd
    rw [if_pos hsdS]
    show RingInv { stepCore c st with
      store := (((st.latestVersion + 1) % st.numVersions,
        (getParamsNoClone st.stashToCpu sds0 st.modules, st.latestVersion + 1)) :: st.store)
      queue := (dequeAppend st.numVersions st.queue
        (Slot.file ((st.latestVersion + 1) % st.numVersions))) }
    have hda : dequeAppend st.numVersions st.queue
        (Slot.file ((st.latestVersion + 1) % st.numVersions))
        = st.queue.drop 1 ++ [Slot.file ((st.latestVersion + 1) % st.numVersions)] := by
      unfold dequeAppend
      rw [if_neg (by omega), h2, if_neg (by omega),
        show st.numVersions + 1 - st.numVersions = 1 from by omega]
    rw [hda]
    refine ⟨?_, ?_, fun i hi => ?_⟩
    · show 1 ≤ st.numVersions
      omega
    · show (st.queue.drop 1 ++ [_]).length = st.numVersions
      rw [List.length_append, List.length_drop, h2]
      simp
      omega
    · have hiN : i < st.numVersions := hi
      unfold slotOK
      rw [if_pos (show ((stepCore c st)).saveDir = true from hsd)]
      show ∃ sds, (st.queue.drop 1 ++
          [Slot.file ((st.latestVersion + 1) % st.numVersions)]).get? i =
        some (Slot.file (claimTag st.numVersions (st.latestVersion + 1) i % st.numVersions)) ∧
        storeLookup (((st.latestVersion + 1) % st.numVersions,
            (getParamsNoClone st.stashToCpu sds0 st.modules, st.latestVersion + 1)) :: st.store)
          (claimTag st.numVersions (st.latestVersion + 1) i % st.numVersions)
          = some (sds, claimTag st.numVersions (st.latestVersion + 1) i)
      rcases lt_or_ge i (st.numVersions - 1) with hlt | hge
      · have hq1 := h3 (1 + i) (by omega)
        unfold slotOK at hq1
        rw [if_pos hsd] at hq1
        obtain ⟨sdsi, hqi, hsti⟩ := hq1
        have hshift : claimTag st.numVersions st.latestVersion (1 + i)
            = claimTag st.numVersions (st.latestVersion + 1) i := by
          rw [Nat.add_comm 1 i]
          exact claimTag_shift st.numVersions st.latestVersion i hnv
        have hne : claimTag st.numVersions (st.latestVersion + 1) i % st.numVersions
            ≠ (st.latestVersion + 1) % st.numVersions := by
          rw [← hshift]
          exact claimTag_mod_ne st.numVersions st.latestVersion (1 + i) hnv (by omega) (by omega)
        refine ⟨sdsi, ?_, ?_⟩
        · rw [dropAppend_get?_lt st.queue _ st.numVersions i h2 hlt, hqi, hshift]
        · rw [storeLookup_cons,
            if_neg (by
              rw [show (((st.latestVersion + 1) % st.numVersions ==
                claimTag st.numVersions (st.latestVersion + 1) i % st.numVersions)) = false from
                beq_eq_false_iff_ne.mpr (Ne.symm hne)]
              exact Bool.false_ne_true), ← hshift]
          exact hsti
      · have hieq : i = st.numVersions - 1 := by omega
        subst hieq
        have hlast := claimTag_last st.numVersions st.latestVersion hnv
        refine ⟨getParamsNoClone st.stashToCpu sds0 st.modules, ?_, ?_⟩
        · rw [dropAppend_get?_last st.queue _ st.numVersions h2 (by omega), hlast]
        · rw [hlast, storeLookup_cons, if_pos (by exact beq_self_eq_true _)]

end WS

namespace WS

theorem ringInv_congrTags {a : OptState} (h : RingInv a) (b : OptState)
    (hq : b.queue = a.queue) (hs : b.store = a.store) (hsd : b.saveDir = a.saveDir)
    (hn : b.numVersions = a.numVersions)
    (ht : ∀ i, claimTag b.numVersions b.latestVersion i
          = claimTag a.numVersions a.latestVersion i) :
    RingInv b := by
  obtain ⟨h1, h2, h3⟩ := h
  refine ⟨by rw [hn]; exact h1, by rw [hq, hn]; exact h2, fun i hi => ?_⟩
  have hx := h3 i (by rw [hn] at hi; exact hi)
  unfold slotOK at hx ⊢
  rw [hsd, hq, hs, ht i, hn]
  exact hx

theorem ringInv_setSlot {a : OptState} (h : RingInv a) (b : OptState) (j : Nat)
    (hsd : a.saveDir = false) (hbsd : b.saveDir = false)
    (hn : b.numVersions = a.numVersions) (hl : b.latestVersion = a.latestVersion)
    (hst : b.store = a.store) (sds' : List StateDict)
    (hq : b.queue = a.queue.set j (Slot.mem sds'
      (claimTag a.numVersions a.latestVersion j)))
    (hj : j < a.numVersions) :
    RingInv b := by
  obtain ⟨h1, h2, h3⟩ := h
  refine ⟨by rw [hn]; exact h1,
    by rw [hq, List.length_set, h2, hn], fun i hi => ?_⟩
  unfold slotOK
  rw [if_neg (by rw [hbsd]; exact Bool.false_ne_true)]
  rw [hq, hn, hl]
  by_cases hij : i = j
  · subst hij
    rw [get?_set_self _ _ _ (by rw [h2]; omega)]
    exact ⟨sds', rfl⟩
  · rw [get?_set_ne _ _ _ _ (fun he => hij he.symm)]
    have hx := h3 i (by rw [hn] at hi; exact hi)
    unfold slotOK at hx
    rw [if_neg (by rw [hsd]; exact Bool.false_ne_true)] at hx
    exact hx

theorem ringInv_step (c : Collab) (st : OptState) (h : RingInv st) :
    RingInv (step c st).1 := by
  unfold step
  split
  · exact ringInv_congrTags h _ rfl rfl rfl rfl (fun _ => rfl)
  · by_cases hnv : 1 < st.numVersions
    · rw [if_pos hnv]
      exact ringInv_congrTags (ringInv_push c st hnv h) _ rfl rfl rfl rfl (fun _ => rfl)
    · have hn1 : st.numVersions = 1 := by
        obtain ⟨h1, -, -⟩ := h
        omega
      rw [if_neg hnv]
      refine ringInv_congrTags h _ rfl rfl rfl rfl (fun i => ?_)
      show claimTag st.numVersions (st.latestVersion + 1) i
        = claimTag st.numVersions st.latestVersion i
      rw [hn1, claimTag_one, claimTag_one]

theorem ringInv_loadOld (st : OptState) (h : RingInv st) :
    RingInv (loadOldParams st) := by
  unfold loadOldParams
  by_cases hnv : 1 < st.numVersions
  · rw [if_pos hnv]
    cases hg : getFromQueue st 0 with
    | none => exact h
    | some sv =>
      obtain ⟨sds, v⟩ := sv
      cases hsd : st.saveDir with
      | true =>
        exact ringInv_congrTags h _ rfl rfl hsd.symm rfl (fun _ => rfl)
      | false =>
        obtain ⟨h1, h2, h3⟩ := h
        have h0 := h3 0 (by omega)
        unfold slotOK at h0
        rw [if_neg (by rw [hsd]; exact Bool.false_ne_true)] at h0
        obtain ⟨sds0, hq0⟩ := h0
        have hgv : getFromQueue st 0 =
            some (sds0, claimTag st.numVersions st.latestVersion 0) := by
          unfold getFromQueue
          rw [hq0]
        rw [hg] at hgv
        simp only [Option.some.injEq, Prod.mk.injEq] at hgv
        obtain ⟨hsds0, hv⟩ := hgv
        refine ringInv_setSlot ⟨h1, h2, h3⟩ _ 0 hsd rfl rfl rfl rfl
          (setParams st.stashToCpu sds st.modules).1 ?_ (by omega)
        show st.queue.set 0 (Slot.mem (setParams st.stashToCpu sds st.modules).1 v) = _
        rw [hv]
  · rw [if_neg hnv]
    exact h

theorem ringInv_loadNew (st : OptState) (h : RingInv st) :
    RingInv (loadNewParams st) := by
  unfold loadNewParams
  by_cases hnv : 1 < st.numVersions
  · rw [if_pos hnv]
    cases hg : getFromQueue st (st.queue.length - 1) with
    | none => exact h
    | some sv =>
      obtain ⟨sds, v⟩ := sv
      cases hsd : st.saveDir with
      | true =>
        exact ringInv_congrTags h _ rfl rfl hsd.symm rfl (fun _ => rfl)
      | false =>
        obtain ⟨h1, h2, h3⟩ := h
        have hlast := h3 (st.numVersions - 1) (by omega)
        unfold slotOK at hlast
        rw [if_neg (by rw [hsd]; exact Bool.false_ne_true)] at hlast
        obtain ⟨sds0, hq0⟩ := hlast
        have hgv : getFromQueue st (st.queue.length - 1) =
            some (sds0, claimTag st.numVersions st.latestVersion (st.numVersions - 1)) := by
          unfold getFromQueue
          rw [h2, hq0]
        rw [hg] at hgv
        simp only [Option.some.injEq, Prod.mk.injEq] at hgv
        obtain ⟨hsds0, hv⟩ := hgv
        refine ringInv_setSlot ⟨h1, h2, h3⟩ _ (st.numVersions - 1) hsd rfl rfl rfl rfl
          (setParams st.stashToCpu sds st.modules).1 ?_ (by omega)
        show st.queue.set (st.queue.length - 1)
          (Slot.mem (setParams st.stashToCpu sds st.modules).1 v) = _
        rw [hv, h2]
  · rw [if_neg hnv]
    exact h

theorem ringInv_reach (c : Collab) (cfg : Config) (s : OptState)
    (hn : 1 ≤ cfg.numVersions) (h : Reach c cfg s) : RingInv s := by
  induction h with
  | init => exact ringInv_init cfg hn
  | step h ih => exact ringInv_step c _ ih
  | zeroGrad h ih => exact ringInv_zeroGrad _ ih
  | loadOld h ih => exact ringInv_loadOld _ ih
  | loadNew h ih => exact ringInv_loadNew _ ih
  | backward g h ih => exact ringInv_congrTags ih _ rfl rfl rfl rfl (fun _ => rfl)

end WS

namespace WS

/-- The tag layout asserted by the specification: ring slot `i` (oldest =
0) is tagged with the integer `latest_version - (num_versions - 1 - i)`,
i.e. the tags are contiguous descending integers from `latest_version`
down to `latest_version - num_versions + 1`. -/
def specRingTags (st : OptState) : Prop :=
  st.queue.length = st.numVersions ∧
  ∀ i, i < st.numVersions →
    (getFromQueue st i).map (fun p => (p.2 : ℤ)) =
      some ((st.latestVersion : ℤ) - ((st.numVersions : ℤ) - 1 - (i : ℤ)))

/-- A concrete in-memory two-version configuration. -/
def cfg2 : Config :=
  { masterParams := [1], grads := [some 1], modules := [[("w", ⟨0, Device.gpu⟩)]],
    lossScale := 1, clipGrad := none, numVersions := 2, macrobatch := false,
    saveDir := false, stashToCpu := false, fp16 := false }

end WS

/-- Counterexample to C2 as stated: immediately after initialization with
`num_versions = 2`, `latest_version = 0` and both ring slots are tagged 0
(`initialize_queue` pre-fills every slot with version 0), whereas the
claimed contiguous descending layout demands tags 0 and −1. -/
theorem C2_ring_tags_counterexample : ¬ WS.specRingTags (WS.init WS.cfg2).1 := by
  unfold WS.specRingTags
  decide

/-- C2 (amended): in every reachable state the ring contains exactly
`num_versions` snapshots, and slot `i` (oldest = 0) is tagged
`claimTag num_versions latest_version i`: with `num_versions = 1` the
single slot keeps its initial tag 0 forever (`step` never pushes), and
otherwise `max 0 (latest_version + 1 + i - num_versions)` — all slots
start at 0 rather than at negative contiguous values.  Consequently, for
`num_versions > 1` the newest slot is always tagged `latest_version`, and
once `latest_version + 1 ≥ num_versions` the tags are exactly the claimed
contiguous descending run `latest_version` down to
`latest_version - num_versions + 1`. -/
theorem C2_ring_tags (c : WS.Collab) (cfg : WS.Config) (s : WS.OptState)
    (hn : 1 ≤ cfg.numVersions) (hr : WS.Reach c cfg s) :
    s.queue.length = s.numVersions ∧
    (∀ i, i < s.numVersions → (WS.getFromQueue s i).map Prod.snd =
      some (WS.claimTag s.numVersions s.latestVersion i)) ∧
    (1 < s.numVersions → (WS.getFromQueue s (s.numVersions - 1)).map Prod.snd =
      some s.latestVersion) ∧
    (1 < s.numVersions → s.numVersions ≤ s.latestVersion + 1 →
      ∀ i, i < s.numVersions → (WS.getFromQueue s i).map Prod.snd =
        some (s.latestVersion - (s.numVersions - 1 - i))) := by
  obtain ⟨h1, h2, h3⟩ := WS.ringInv_reach c cfg s hn hr
  have htag : ∀ i, i < s.numVersions → (WS.getFromQueue s i).map Prod.snd =
      some (WS.claimTag s.numVersions s.latestVersion i) := by
    intro i hi
    have hx := h3 i hi
    unfold WS.slotOK at hx
    cases hsd : s.saveDir with
    | false =>
      rw [if_neg (by rw [hsd]; exact Bool.false_ne_true)] at hx
      obtain ⟨sds, hq⟩ := hx
      unfold WS.getFromQueue
      rw [hq]
      rfl
    | true =>
      rw [if_pos hsd] at hx
      obtain ⟨sds, hq, hsto⟩ := hx
      unfold WS.getFromQueue
      rw [hq]
      show (WS.storeLookup s.store
        (WS.claimTag s.numVersions s.latestVersion i % s.numVersions)).map Prod.snd = _
      rw [hsto]
      rfl
  refine ⟨h2, htag, fun hnv => ?_, fun hnv hfull i hi => ?_⟩
  · rw [htag (s.numVersions - 1) (by omega)]
    congr 1
    unfold WS.claimTag
    rw [if_neg (by omega)]
    omega
  · rw [htag i hi]
    congr 1
    unfold WS.claimTag
    rw [if_neg (by omega)]
    omega

/-- Witness for C2 (amended) at the freshly constructed two-version
in-memory optimizer. -/
theorem C2_ring_tags_witness :
    (WS.init WS.cfg2).1.queue.length = (WS.init WS.cfg2).1.numVersions ∧
    (∀ i, i < (WS.init WS.cfg2).1.numVersions →
      (WS.getFromQueue (WS.init WS.cfg2).1 i).map Prod.snd =
        some (WS.claimTag (WS.init WS.cfg2).1.numVersions
          (WS.init WS.cfg2).1.latestVersion i)) ∧
    (1 < (WS.init WS.cfg2).1.numVersions →
      (WS.getFromQueue (WS.init WS.cfg2).1 ((WS.init WS.cfg2).1.numVersions - 1)).map
          Prod.snd = some (WS.init WS.cfg2).1.latestVersion) ∧
    (1 < (WS.init WS.cfg2).1.numVersions →
      (WS.init WS.cfg2).1.numVersions ≤ (WS.init WS.cfg2).1.latestVersion + 1 →
      ∀ i, i < (WS.init WS.cfg2).1.numVersions →
        (WS.getFromQueue (WS.init WS.cfg2).1 i).map Prod.snd =
          some ((WS.init WS.cfg2).1.latestVersion -
            ((WS.init WS.cfg2).1.numVersions - 1 - i))) :=
  C2_ring_tags WS.sampleCollab WS.cfg2 (WS.init WS.cfg2).1 (by decide) WS.Reach.init
